import Mathlib

/-! Verification development for `oci/artefact.go` (labs-tape).

Shallow embedding of the tag derivation engine, the artefact fetcher and the
push orchestration of `src/oci/artefact.go`, followed by theorems about them.

Conventions of the embedding.

* Go strings are Lean `String`s; the byte-level helpers of package `strings`
  are defined on the character list (for the ASCII data the program handles,
  tag names, hex digests and media types, bytes and characters coincide).
* A Go run-time panic (index or slice bound out of range) is the `error` side
  of `Except Panic`.
* A Go `map` is an association list; only the operations the source performs
  on it are defined.
* Calls that leave the program (the registry, the file system, the image
  library) are fields of an explicit environment: each field is the result
  the call returns.
-/

set_option autoImplicit false

namespace Tape

/-! ## Go run-time behaviour -/

/-- Run-time panics the modelled code can raise. -/
inductive Panic where
  | indexOutOfRange (index len : Nat)
  | sliceBoundsOutOfRange (bound len : Nat)
  deriving DecidableEq, Repr

deriving instance DecidableEq for Except

/-- Go indexing `xs[i]`: panics when `i` is not below `len(xs)`. -/
def goIndex {α : Type} (xs : List α) (i : Nat) : Except Panic α :=
  match xs.get? i with
  | some x => .ok x
  | none => .error (.indexOutOfRange i xs.length)

namespace strings

/-- Go `strings.HasPrefix(s, prefix)`. -/
def HasPrefix (s p : String) : Bool := p.data.isPrefixOf s.data

/-- Go `strings.TrimPrefix(s, prefix)`: `s[len(prefix):]` when `s` starts with
`prefix`, and `s` unchanged otherwise. -/
def TrimPrefix (s p : String) : String :=
  if HasPrefix s p then ⟨s.data.drop p.data.length⟩ else s

end strings

/-- Go slice expression `s[:n]` on a string: panics when `n > len(s)`. -/
def goSliceTo (s : String) (n : Nat) : Except Panic String :=
  if n ≤ s.data.length then .ok ⟨s.data.take n⟩
  else .error (.sliceBoundsOutOfRange n s.data.length)

/-! ## `golang.org/x/mod/semver` -/

namespace semver

/-- ASCII digit test, `'0' <= c && c <= '9'`. -/
def isDigit (c : Char) : Bool := decide ('0' ≤ c) && decide (c ≤ '9')

/-- Identifier characters of a pre-release or build tag: `[0-9A-Za-z-]`. -/
def isIdentChar (c : Char) : Bool :=
  (decide ('A' ≤ c) && decide (c ≤ 'Z')) || (decide ('a' ≤ c) && decide (c ≤ 'z'))
    || (decide ('0' ≤ c) && decide (c ≤ '9')) || c == '-'

/-- A numeric identifier with a leading zero: all digits, longer than one
character, starting with `'0'`. -/
def isBadNum (v : List Char) : Bool :=
  let i := (v.takeWhile isDigit).length
  i == v.length && decide (1 < i) && v.head? == some '0'

/-- Parse a decimal number without leading zeroes off the front of `v`; the
result is the unparsed rest. -/
def parseInt (v : List Char) : Option (List Char) :=
  match v with
  | [] => none
  | c :: cs =>
    if !isDigit c then none
    else if c == '0' && (cs.takeWhile isDigit).length != 0 then none
    else some (cs.dropWhile isDigit)

/-- Loop of `parsePrerelease`: `cur` is the identifier read since the last
dot (`v[start:i]`); stops in front of a `'+'`. -/
def prereleaseLoop : List Char → List Char → Option (List Char)
  | [], cur => if cur.isEmpty || isBadNum cur then none else some []
  | c :: cs, cur =>
    if c == '+' then
      if cur.isEmpty || isBadNum cur then none else some (c :: cs)
    else if !isIdentChar c && c != '.' then none
    else if c == '.' then
      if cur.isEmpty || isBadNum cur then none else prereleaseLoop cs []
    else prereleaseLoop cs (cur ++ [c])

/-- Parse `-ident(.ident)*` off the front of `v`. -/
def parsePrerelease (v : List Char) : Option (List Char) :=
  match v with
  | '-' :: cs => prereleaseLoop cs []
  | _ => none

/-- Loop of `parseBuild`; runs to the end of the string. -/
def buildLoop : List Char → List Char → Option (List Char)
  | [], cur => if cur.isEmpty then none else some []
  | c :: cs, cur =>
    if !isIdentChar c && c != '.' then none
    else if c == '.' then
      if cur.isEmpty then none else buildLoop cs []
    else buildLoop cs (cur ++ [c])

/-- Parse `+ident(.ident)*` off the front of `v`. -/
def parseBuild (v : List Char) : Option (List Char) :=
  match v with
  | '+' :: cs => buildLoop cs []
  | _ => none

/-- The tail of `parse` after the patch number: optional pre-release, optional
build, then end of input. -/
def parseSuffix (v : List Char) : Bool :=
  let afterPre : Option (List Char) :=
    match v with
    | '-' :: _ => parsePrerelease v
    | _ => some v
  match afterPre with
  | none => false
  | some v1 =>
    let afterBuild : Option (List Char) :=
      match v1 with
      | '+' :: _ => parseBuild v1
      | _ => some v1
    match afterBuild with
    | none => false
    | some v2 => v2.isEmpty

/-- Modelled from the spec: `semver.IsValid` belongs to the library
golang.org/x/mod/semver, which is not under src/. "Syntactically valid
semantic version" is rendered by that library's grammar:
`vMAJOR[.MINOR[.PATCH[-PRERELEASE][+BUILD]]]`. -/
def IsValid (s : String) : Bool :=
  match s.data with
  | 'v' :: v =>
    match parseInt v with
    | none => false
    | some [] => true
    | some ('.' :: v1) =>
      match parseInt v1 with
      | none => false
      | some [] => true
      | some ('.' :: v2) =>
        match parseInt v2 with
        | none => false
        | some v3 => parseSuffix v3
      | some _ => false
    | some _ => false
  | _ => false

end semver

/-! ## `github.com/google/go-containerregistry/pkg/name` -/

namespace name

/-- A parsed repository; `Name` is what `Repository.Name()` prints
(registry and repository path). -/
structure Repository where
  Name : String
  deriving DecidableEq, Repr

/-- A tag reference: a repository and a tag string. -/
structure Tag where
  repository : Repository
  tag : String
  deriving DecidableEq, Repr

/-- Go `Repository.Tag(identifier)`. -/
def Repository.Tag (r : Repository) (identifier : String) : Tag :=
  { repository := r, tag := identifier }

/-- Go `Tag.Context()`: the repository of the tag. -/
def Tag.Context (t : Tag) : Repository := t.repository

/-- Go `Tag.TagStr()`. -/
def Tag.TagStr (t : Tag) : String := t.tag

/-- Go `Tag.String()`: repository name, the tag delimiter `:`, tag string. -/
def Tag.String (t : Tag) : String := t.repository.Name ++ ":" ++ t.tag

end name

/-! ## Attestation statements (`attest/types`, `attest/manifest`, `attest/vcs/git`) -/

namespace git

/-- Modelled from the spec: `git.ProviderName`, "the constant `"git"`". -/
def ProviderName : String := "git"

/-- A tag of the checked-out reference; only `Name` is read. -/
structure Tag where
  Name : String
  deriving DecidableEq, Repr

/-- Modelled from the spec: `git.Summary` is declared outside src/. A summary
has the path it describes and "a reference object carrying an ordered list of
tag names" (`Git.Reference.Tags`). -/
structure Summary where
  Path : String
  Tags : List Tag
  deriving DecidableEq, Repr

end git

/-- The dynamic type behind `Full()` of an entry-group summary: the type
assertion `.(*git.Summary)` succeeds on `git` only. -/
inductive SummaryFull where
  | git (s : git.Summary)
  | other (provider : String)
  deriving DecidableEq, Repr

/-- An element of an entry group. -/
structure PathCheckSummary where
  Full : SummaryFull
  deriving DecidableEq, Repr

/-- Modelled from the spec: the payload of a VCS attestation, "a list of named
providers, a list of entry groups, each group holding path-scoped summaries". -/
structure VCSEntries where
  Providers : List String
  EntryGroups : List (List PathCheckSummary)
  deriving DecidableEq, Repr

/-- Modelled from the spec: an attestation statement, of which the program
needs the predicate type and, for a manifest-directory statement, the VCS
entries of its predicate
(`MakeDirContentsStatementFrom(s).GetUnderlyingPredicate().VCSEntries`). -/
structure Statement where
  PredicateType : String
  VCSEntries : VCSEntries
  deriving DecidableEq, Repr

/-- Modelled from the spec: `manifest.ManifestDirPredicateType`, the predicate
type that marks a statement as a manifest-directory attestation; its literal
is declared outside src/ and no theorem depends on it. -/
def ManifestDirPredicateType : String := "docker.com/tape/ManifestDir/v0.1"

/-- Modelled from the spec: `attestTypes.FilterByPredicateType`, "filter the
supplied statements to those whose predicate type" is the given one. -/
def FilterByPredicateType (t : String) (statements : List Statement) : List Statement :=
  statements.filter (fun s => s.PredicateType == t)

/-! ## Tag derivation engine -/

/-- Go `type tagSet struct { set map[string]struct{}; list []name.Tag }`;
the key-only map is the list of its keys. -/
structure tagSet where
  set : List String
  list : List name.Tag
  deriving DecidableEq, Repr

/-- Go `newTagtagSet(c)`: the capacity hint has no observable effect. -/
def newTagtagSet (_c : Nat) : tagSet := { set := [], list := [] }

/-- Go `(*tagSet).add(t, image)`. -/
def tagSet.add (s : tagSet) (t : String) (image : name.Tag) : tagSet :=
  let t := if !(strings.HasPrefix t "v") then "v" ++ t else t
  if !(s.set.contains t) then
    if semver.IsValid t then
      { list := s.list ++ [image.Context.Tag t], set := t :: s.set }
    else s
  else s

/-- Body of the loop `for i := range ref.Tags` of `SemVerTagsFromAttestations`
on the pair `(tags, scopedTags)`. -/
def semVerLoopBody (path : String) (tag : name.Tag) (st : tagSet × tagSet) (t : String) :
    tagSet × tagSet :=
  if strings.HasPrefix t (path ++ "/") then
    (st.1, st.2.add (strings.TrimPrefix t (path ++ "/")) tag)
  else
    (st.1.add t tag, st.2)

/-- Go `SemVerTagsFromAttestations(ctx, tag, sourceAttestations...)`. -/
def SemVerTagsFromAttestations (tag : name.Tag) (sourceAttestations : List Statement) :
    Except Panic (List name.Tag) := do
  let statements := FilterByPredicateType ManifestDirPredicateType sourceAttestations
  if statements.length != 1 then
    return []
  let entries := (← goIndex statements 0).VCSEntries
  -- `len(EntryGroups) != 1 && len(Providers) != 1 || Providers[0] != git.ProviderName`
  let guard ←
    if entries.EntryGroups.length != 1 && entries.Providers.length != 1 then
      pure true
    else do
      let p ← goIndex entries.Providers 0
      pure (p != git.ProviderName)
  if guard then
    return []
  if (← goIndex entries.EntryGroups 0).length == 0 then
    return []
  match (← goIndex (← goIndex entries.EntryGroups 0) 0).Full with
  | .other _ => return []
  | .git groupSummary =>
    let refTags := groupSummary.Tags
    let numTags := refTags.length
    if numTags == 0 then
      return []
    let tags := newTagtagSet numTags
    let scopedTags := newTagtagSet numTags
    let (tags, scopedTags) :=
      (refTags.map (fun x => x.Name)).foldl (semVerLoopBody groupSummary.Path tag) (tags, scopedTags)
    if scopedTags.list.length > 0 then
      return scopedTags.list
    return tags.list

/-! ### Reference definitions for the tag derivation engine -/

/-- The insertion rule's normalisation: prepend `"v"` unless the name already
starts with `"v"`. -/
def normaliseTagName (t : String) : String :=
  if strings.HasPrefix t "v" then t else "v" ++ t

/-- Keep the first occurrence of every string and drop each later duplicate. -/
def dropLaterDuplicates : List String → List String
  | [] => []
  | x :: xs => x :: (dropLaterDuplicates xs).filter (fun y => y != x)

/-- The tag-set insertion rule as the specification words it: normalise, keep
the valid semantic versions, drop later duplicates, keep first-seen order, and
express each string as a tag of the image's repository. -/
def tagSetReference (image : name.Tag) (names : List String) : List name.Tag :=
  (dropLaterDuplicates ((names.map normaliseTagName).filter semver.IsValid)).map
    (fun t => image.Context.Tag t)

/-- The list a fresh tag set holds after `add` was called on `names` in order. -/
def addAll (image : name.Tag) (names : List String) : List name.Tag :=
  (names.foldl (fun s t => s.add t image) (newTagtagSet names.length)).list

/-- The scoped set: tags built from the names prefixed by `path + "/"`, with
the prefix stripped. -/
def scopedSet (image : name.Tag) (path : String) (names : List String) : List name.Tag :=
  addAll image ((names.filter (fun t => strings.HasPrefix t (path ++ "/"))).map
    (fun t => strings.TrimPrefix t (path ++ "/")))

/-- The global set: tags built from the names not prefixed by `path + "/"`. -/
def globalSet (image : name.Tag) (path : String) (names : List String) : List name.Tag :=
  addAll image (names.filter (fun t => !(strings.HasPrefix t (path ++ "/"))))

/-! ### Concrete inputs used by the witnesses -/

/-- The image reference of the repository's test, `podinfo:test.123456`. -/
def testImage : name.Tag := (name.Repository.mk "podinfo").Tag "test.123456"

/-- A git summary for path `podinfo` carrying the raw tags of the test case
`tape-git-testing@9eeeed9`. -/
def podinfoSummary : git.Summary :=
  { Path := "podinfo", Tags := [⟨"0.0.1"⟩, ⟨"v0.0.1"⟩, ⟨"podinfo/v6.6.3"⟩] }

/-- A manifest-directory statement with the given providers and entry groups. -/
def manifestDirStatement (providers : List String) (groups : List (List PathCheckSummary)) :
    Statement :=
  { PredicateType := ManifestDirPredicateType,
    VCSEntries := { Providers := providers, EntryGroups := groups } }

/-- The statement of the test case: provider git, one entry group, one summary. -/
def podinfoStatement : Statement :=
  manifestDirStatement ["git"] [[{ Full := .git podinfoSummary }]]

/-! ## OCI object graph and the artefact fetcher -/

/-- Errors returned by the program: those of its libraries, its own
`fmt.Errorf("<context>: %w", err)` wrappers, and the media-type mismatch of
`FetchFromIndexOrImage`. -/
inductive Error where
  | external (msg : String)
  | wrapped (context : String) (cause : Error)
  | mediaTypeMismatch (manifestMediaType layerMediaType : String)
  deriving DecidableEq, Repr

/-- Go `fmt.Errorf(context + ": %w", err)` on the error side of a result. -/
def wrapError {α : Type} (context : String) (r : Except Error α) : Except Error α :=
  match r with
  | .ok a => .ok a
  | .error e => .error (.wrapped context e)

/-- Go `type MediaType string`. -/
abbrev MediaType := String

def mediaTypePrefix : String := "application/vnd.docker.tape"
def ConfigMediaType : MediaType := mediaTypePrefix ++ ".config.v1alpha1+json"
def ContentMediaType : MediaType := mediaTypePrefix ++ ".content.v1alpha1.tar+gzip"
def AttestMediaType : MediaType := mediaTypePrefix ++ ".attest.v1alpha1.jsonl+gzip"
def ContentInterpreterAnnotation : String := mediaTypePrefix ++ ".content-interpreter.v1alpha1"
def ContentInterpreterKubectlApply : String := mediaTypePrefix ++ ".kubectl-apply.v1alpha1.tar+gzip"
def AttestationsSummaryAnnotation : String := mediaTypePrefix ++ ".attestations-summary.v1alpha1"
def OCIManifestSchema1 : MediaType := "application/vnd.oci.image.manifest.v1+json"

/-- A content digest, `v1.Hash`. -/
structure Hash where
  Algorithm : String
  Hex : String
  deriving DecidableEq, Repr

/-- Go `Hash.String()`. -/
def Hash.String (h : Hash) : String := h.Algorithm ++ ":" ++ h.Hex

/-- Go `v1.Platform`, of which the program sets two fields. -/
structure Platform where
  Architecture : String
  OS : String
  deriving DecidableEq, Repr

/-- Go `v1.Descriptor`, restricted to the fields the program reads or sets. -/
structure Descriptor where
  MediaType : MediaType
  Digest : Hash
  ArtifactType : String
  Platform : Option Platform
  deriving DecidableEq, Repr

/-- A Go `map[string]string` of annotations. -/
abbrev Annotations := List (String × String)

/-- Go `m[k] = v` on a map kept as an association list with unique keys: an
existing key has its value replaced, a new key is added. -/
def goMapSet {κ ν : Type} [DecidableEq κ] : List (κ × ν) → κ → ν → List (κ × ν)
  | [], k, v => [(k, v)]
  | (k1, v1) :: rest, k, v =>
    if k1 = k then (k, v) :: rest else (k1, v1) :: goMapSet rest k v

/-- Go `v, ok := m[k]`. -/
def goMapGet {κ ν : Type} [DecidableEq κ] : List (κ × ν) → κ → Option ν
  | [], _ => none
  | (k1, v1) :: rest, k => if k1 = k then some v1 else goMapGet rest k

/-- Go `v1.Manifest`: ordered layers and annotations. -/
structure Manifest where
  Layers : List Descriptor
  Annotations : Annotations
  deriving DecidableEq, Repr

/-- Go `v1.IndexManifest`. -/
structure IndexManifest where
  Manifests : List Descriptor
  deriving DecidableEq, Repr

/-- The bytes behind an `io.ReadCloser`. -/
abbrev Blob := List Nat

/-- Go `v1.Layer` as the fetcher uses it: `Compressed()` returns a stream or an error. -/
structure Layer where
  Compressed : Except Error Blob
  deriving DecidableEq, Repr

/-- Go `v1.Image` as the fetcher uses it: each method is the result it returns. -/
structure Image where
  Manifest : Except Error Manifest
  Digest : Except Error Hash
  LayerByDigest : Hash → Except Error Layer

/-- Go `v1.ImageIndex` as the fetcher uses it. -/
structure ImageIndex where
  Image : Hash → Except Error Image

/-- Go `type ArtefactInfo struct`. -/
structure ArtefactInfo where
  ReadCloser : Blob
  MediaType : MediaType
  Annotations : Annotations
  Digest : String
  deriving DecidableEq, Repr

/-- Go `newArtifcatInfoFromLayerDescriptor(image, layerDecriptor, annotations)`. -/
def newArtifcatInfoFromLayerDescriptor (image : Image) (layerDecriptor : Descriptor)
    (annotations : Annotations) : Except Error ArtefactInfo := do
  let layer ← wrapError "fetching artefact image failed" (image.LayerByDigest layerDecriptor.Digest)
  let blob ← wrapError "extracting compressed aretefact image failed" layer.Compressed
  return {
    ReadCloser := blob,
    MediaType := layerDecriptor.MediaType,
    Annotations := annotations,
    Digest := layerDecriptor.Digest.String }

/-- Go `(*Client).getImage(ctx, imageIndex, digest)`. -/
def getImage (imageIndex : ImageIndex) (digest : Hash) : Except Error (Image × Manifest) := do
  let image ← imageIndex.Image digest
  let manifest ← wrapError ("failed to get manifest for " ++ digest.String) image.Manifest
  return (image, manifest)

/-- The selector map of `FetchFromIndexOrImage`, a key-only map kept as the
list of its keys. -/
def makeSelector (mediaTypes : List MediaType) : List MediaType :=
  mediaTypes.foldl (fun selector mediaType => mediaType :: selector) []

/-- The closure `skip` of `FetchFromIndexOrImage`. -/
def skip (mediaTypes : List MediaType) (mediaType : MediaType) : Bool :=
  if mediaTypes.length > 0 then
    if !((makeSelector mediaTypes).contains mediaType) then true else false
  else false

/-- Loop over `manifest.Layers` in the plain-image branch. -/
def imageLayersLoop (mediaTypes : List MediaType) (image : Image) (manifest : Manifest) :
    List Descriptor → List ArtefactInfo → Except Error (List ArtefactInfo)
  | [], artefacts => .ok artefacts
  | layerDescriptor :: rest, artefacts =>
    if skip mediaTypes layerDescriptor.MediaType then
      imageLayersLoop mediaTypes image manifest rest artefacts
    else
      match newArtifcatInfoFromLayerDescriptor image layerDescriptor manifest.Annotations with
      | .error err => .error err
      | .ok info => imageLayersLoop mediaTypes image manifest rest (artefacts ++ [info])

/-- Loop over `manifest.Layers` in the index branch. -/
def indexLayersLoop (image : Image) (manifestDescriptor : Descriptor) (manifest : Manifest) :
    List Descriptor → List ArtefactInfo → Except Error (List ArtefactInfo)
  | [], artefacts => .ok artefacts
  | layerDescriptor :: rest, artefacts =>
    if layerDescriptor.MediaType != manifestDescriptor.ArtifactType then
      .error (.mediaTypeMismatch manifestDescriptor.MediaType layerDescriptor.MediaType)
    else
      match newArtifcatInfoFromLayerDescriptor image layerDescriptor manifest.Annotations with
      | .error err => .error err
      | .ok info => indexLayersLoop image manifestDescriptor manifest rest (artefacts ++ [info])

/-- Loop over `indexManifest.Manifests`. -/
def indexManifestsLoop (imageIndex : ImageIndex) (mediaTypes : List MediaType) :
    List Descriptor → List ArtefactInfo → List (Hash × Manifest) →
      Except Error (List ArtefactInfo × List (Hash × Manifest))
  | [], artefacts, manifests => .ok (artefacts, manifests)
  | manifestDescriptor :: rest, artefacts, manifests =>
    if skip mediaTypes manifestDescriptor.ArtifactType then
      indexManifestsLoop imageIndex mediaTypes rest artefacts manifests
    else
      match getImage imageIndex manifestDescriptor.Digest with
      | .error err => .error err
      | .ok (image, manifest) =>
        let manifests := goMapSet manifests manifestDescriptor.Digest manifest
        match indexLayersLoop image manifestDescriptor manifest manifest.Layers artefacts with
        | .error err => .error err
        | .ok artefacts => indexManifestsLoop imageIndex mediaTypes rest artefacts manifests

/-- Go `(*Client).FetchFromIndexOrImage(ctx, imageIndex, indexManifest, image, mediaTypes...)`;
`indexManifest == nil` is `none`. An error result carries neither artefacts nor
manifests (`return nil, nil, err`). -/
def FetchFromIndexOrImage (imageIndex : ImageIndex) (indexManifest : Option IndexManifest)
    (image : Image) (mediaTypes : List MediaType) :
    Except Error (List ArtefactInfo × List (Hash × Manifest)) :=
  let artefacts : List ArtefactInfo := []
  let manifests : List (Hash × Manifest) := []
  match indexManifest with
  | none => do
    let manifest ← wrapError "failed to get manifest" image.Manifest
    let imageDigest ← image.Digest
    let manifests := goMapSet manifests imageDigest manifest
    let artefacts ← imageLayersLoop mediaTypes image manifest manifest.Layers artefacts
    return (artefacts, manifests)
  | some indexManifest =>
    indexManifestsLoop imageIndex mediaTypes indexManifest.Manifests artefacts manifests

/-! ### Reference definitions for the artefact fetcher -/

/-- The allow-list selects a media type: the list is empty (accept all) or the
type is one of its elements. -/
def selected (mediaTypes : List MediaType) (mediaType : MediaType) : Bool :=
  mediaTypes.isEmpty || decide (mediaType ∈ mediaTypes)

/-- Every manifest the allow-list selects resolves to an image and a manifest,
and every layer of such a manifest resolves to a compressed stream. -/
def AllResolve (imageIndex : ImageIndex) (mediaTypes : List MediaType)
    (indexManifest : IndexManifest) : Prop :=
  ∀ d ∈ indexManifest.Manifests, selected mediaTypes d.ArtifactType = true →
    ∃ img m, getImage imageIndex d.Digest = .ok (img, m) ∧
      ∀ l ∈ m.Layers, ∃ info, newArtifcatInfoFromLayerDescriptor img l m.Annotations = .ok info

/-- The layers of the selected manifests, in manifest order and then layer
order; `man` gives the manifest resolved for a manifest digest and `blob` the
stream resolved for a layer digest of that manifest. -/
def selectedLayers (mediaTypes : List MediaType) (man : Hash → Manifest)
    (blob : Hash → Hash → Blob) (ds : List Descriptor) : List ArtefactInfo :=
  (ds.filter (fun d => selected mediaTypes d.ArtifactType)).flatMap (fun d =>
    (man d.Digest).Layers.map (fun l =>
      { ReadCloser := blob d.Digest l.Digest,
        MediaType := l.MediaType,
        Annotations := (man d.Digest).Annotations,
        Digest := l.Digest.String }))

/-- A digest built from a short name, for the concrete inputs below. -/
def sha (hex : String) : Hash := { Algorithm := "sha256", Hex := hex }

/-- A layer descriptor carrying the attestation media type. -/
def mismatchLayerDescriptor : Descriptor :=
  { MediaType := AttestMediaType, Digest := sha "1a", ArtifactType := "", Platform := none }

/-- A manifest whose sole layer is `mismatchLayerDescriptor`. -/
def mismatchManifest : Manifest :=
  { Layers := [mismatchLayerDescriptor], Annotations := [] }

/-- The image behind `mismatchManifest`; its layer resolves. -/
def mismatchImage : Image :=
  { Manifest := .ok mismatchManifest,
    Digest := .ok (sha "c0"),
    LayerByDigest := fun _ => .ok { Compressed := .ok [1, 2, 3] } }

/-- The index entry for `mismatchImage`, declaring the content media type. -/
def mismatchDescriptor : Descriptor :=
  { MediaType := OCIManifestSchema1, Digest := sha "c0", ArtifactType := ContentMediaType,
    Platform := none }

/-- An index manifest with the single entry `mismatchDescriptor`. -/
def mismatchIndexManifest : IndexManifest := { Manifests := [mismatchDescriptor] }

/-- An image index resolving every digest to `mismatchImage`. -/
def mismatchIndex : ImageIndex := { Image := fun _ => .ok mismatchImage }

/-- A layer descriptor carrying the content media type. -/
def contentLayerDescriptor : Descriptor :=
  { MediaType := ContentMediaType, Digest := sha "1c", ArtifactType := "", Platform := none }

/-- A well-formed content manifest: one layer of the content media type. -/
def contentManifest : Manifest :=
  { Layers := [contentLayerDescriptor],
    Annotations := [("org.opencontainers.image.created", "2024-01-01T00:00:00Z")] }

/-- A well-formed attestation manifest: one layer of the attestation media type. -/
def attestManifest : Manifest :=
  { Layers := [{ MediaType := AttestMediaType, Digest := sha "1a", ArtifactType := "",
                 Platform := none }],
    Annotations := [("summary", "1 statement")] }

/-- The manifest stored under a manifest digest of `packageIndex`. -/
def packageManifestOf (h : Hash) : Manifest :=
  if h = sha "c0" then contentManifest else attestManifest

/-- The stream stored under a layer digest of `packageIndex`. -/
def packageBlobOf (_manifest layer : Hash) : Blob :=
  if layer = sha "1c" then [31, 139, 8] else [31, 139, 9]

/-- The image stored under a manifest digest of `packageIndex`. -/
def packageImageOf (h : Hash) : Image :=
  { Manifest := .ok (packageManifestOf h),
    Digest := .ok h,
    LayerByDigest := fun l => .ok { Compressed := .ok (packageBlobOf h l) } }

/-- An index as `PushArtefact` composes it: a content manifest and an
attestation manifest, each declaring the media type of its layer. -/
def packageIndexManifest : IndexManifest :=
  { Manifests := [
      { MediaType := OCIManifestSchema1, Digest := sha "c0", ArtifactType := ContentMediaType,
        Platform := none },
      { MediaType := OCIManifestSchema1, Digest := sha "a0", ArtifactType := AttestMediaType,
        Platform := none }] }

/-- The image index behind `packageIndexManifest`. -/
def packageIndex : ImageIndex := { Image := fun h => .ok (packageImageOf h) }

/-! ## Push orchestration (`PushArtefact`, `BuildAttestations`) -/

/-- Go `time.Time` as the program uses it: only `Format(time.RFC3339)` is read. -/
structure Time where
  RFC3339 : String
  deriving DecidableEq, Repr

/-- The digit table of `encoding/hex`. -/
def hextable : List Char := "0123456789abcdef".data

/-- Go `hex.EncodeToString(src)`: two lowercase digits per byte, `hextable[v>>4]`
then `hextable[v&0x0f]`; a byte is a natural number taken modulo 256. -/
def hexEncodeToString (src : List Nat) : String :=
  ⟨src.flatMap (fun v => [hextable.getD (v % 256 / 16) '0', hextable.getD (v % 16) '0'])⟩

/-- A layer built by `tarball.LayerFromFile` or `tarball.LayerFromOpener`. -/
structure BuiltLayer where
  MediaType : MediaType
  Compressed : Blob
  deriving DecidableEq, Repr

/-- An image under construction by the `mutate` calls of `PushArtefact`. -/
structure ImageData where
  MediaType : Tape.MediaType
  ConfigMediaType : Tape.MediaType
  Annotations : Annotations
  Layers : List BuiltLayer
  deriving DecidableEq, Repr

/-- An index under construction: its annotations and the appended manifests,
each with the descriptor of its `mutate.IndexAddendum`. -/
structure IndexData where
  Annotations : Annotations
  Manifests : List (Descriptor × ImageData)
  deriving DecidableEq, Repr

/-- Go `empty.Image`. -/
def emptyImage : ImageData :=
  { MediaType := "application/vnd.docker.distribution.manifest.v2+json",
    ConfigMediaType := "application/vnd.docker.container.image.v1+json",
    Annotations := [], Layers := [] }

/-- Go `empty.Index`. -/
def emptyIndex : IndexData := { Annotations := [], Manifests := [] }

/-- Go `ociclient.CreatedAnnotation`. -/
def CreatedAnnotation : String := "org.opencontainers.image.created"

/-- Go `makeDescriptorWithPlatform()`: every field but `Platform` is zero. -/
def makeDescriptorWithPlatform : Descriptor :=
  { MediaType := "", Digest := { Algorithm := "", Hex := "" }, ArtifactType := "",
    Platform := some { Architecture := "unknown", OS := "unknown" } }

/-- Go `type PackageRefs struct`. -/
structure PackageRefs where
  Digest : String
  Primary : String
  Short : String
  SemVer : List String
  deriving DecidableEq, Repr

/-- What `PushArtefact` calls outside itself; each field is the answer of the
call. `none` in an `Option Error` is Go's `nil` error. -/
structure PushEnv where
  /-- Modelled from the spec: `manifestTypes.ConfigImageTagPrefix`, "a fixed
  prefix"; its literal is declared outside src/. -/
  ConfigImageTagPrefix : String
  /-- `os.MkdirTemp`. -/
  mkdirTemp : Option Error
  /-- `os.OpenFile` on the temporary file. -/
  openFile : Option Error
  /-- `c.BuildArtefact(tmpFile, sourceDir, output)`: the bytes written to the
  temporary file and `c.hash.Sum(nil)` of them. -/
  buildArtefact : String → Except Error (Blob × List Nat)
  /-- `attestTypes.Statements(statements).Encode(gw)`. -/
  encodeStatements : List Statement → Except Error Blob
  /-- `gw.Close()` in `BuildAttestations`. -/
  gzipClose : Option Error
  /-- `tarball.LayerFromOpener`. -/
  layerFromOpener : Option Error
  /-- `name.NewRepository(destinationRef)`. -/
  newRepository : String → Except Error name.Repository
  /-- `time.Now().UTC()`. -/
  now : Time
  /-- `tarball.LayerFromFile`. -/
  layerFromFile : Option Error
  /-- `mutate.Append(image, mutate.Addendum{Layer: layer})`. -/
  mutateAppend : ImageData → BuiltLayer → Option Error
  /-- `Statements.MarshalSummaryAnnotation()`. -/
  marshalSummaryAnnotation : List Statement → Except Error String
  /-- `index.Digest()`. -/
  indexDigest : IndexData → Except Error Hash
  /-- `remote.WriteIndex(tag, index, ...)`. -/
  writeIndex : name.Tag → IndexData → Option Error
  /-- `remote.Tag(tagAlias, index, ...)` at iteration `i` of the alias loop. -/
  remoteTag : Nat → name.Tag → IndexData → Option Error

/-- How a stretch of `PushArtefact` ends when it does not run to its end: with
a returned error or with a run-time panic. -/
inductive Failure where
  | error (e : Error)
  | panic (p : Panic)
  deriving DecidableEq, Repr

/-- `if err != nil { return nil, err }` on a call returning a value. -/
def orReturn {α : Type} (r : Except Error α) : Except Failure α :=
  match r with
  | .ok a => .ok a
  | .error e => .error (.error e)

/-- `if err != nil { return nil, err }` on a call returning only an error. -/
def orReturnErr (r : Option Error) : Except Failure Unit :=
  match r with
  | none => .ok ()
  | some e => .error (.error e)

/-- A panicking expression inside `PushArtefact`. -/
def orPanic {α : Type} (r : Except Panic α) : Except Failure α :=
  match r with
  | .ok a => .ok a
  | .error p => .error (.panic p)

/-- Go `(*Client).BuildAttestations(statements)`; `nil` layer is `none`. -/
def BuildAttestations (env : PushEnv) (statements : List Statement) :
    Except Error (Option BuiltLayer) :=
  if statements.length == 0 then
    .ok none
  else do
    let output ← env.encodeStatements statements
    match env.gzipClose with
    | some err => .error err
    | none =>
      match env.layerFromOpener with
      | some err => .error (.wrapped "creating attestations layer failed" err)
      | none => return some { MediaType := AttestMediaType, Compressed := output }

/-- Lines 259-265 of `PushArtefact`: the repository of the destination, the
hex digest, the primary tag and the short tag. -/
def nameTags (env : PushEnv) (destinationRef : String) (sum : List Nat) :
    Except Failure (name.Tag × name.Tag) := do
  let repo ← orReturn (wrapError "invalid URL" (env.newRepository destinationRef))
  let hash := hexEncodeToString sum
  let tag := repo.Tag (env.ConfigImageTagPrefix ++ hash)
  let shortTag := tag.Context.Tag (env.ConfigImageTagPrefix ++ (← orPanic (goSliceTo hash 7)))
  return (tag, shortTag)

/-- The values in scope of `PushArtefact` when it reaches `remote.WriteIndex`. -/
structure Composed where
  tag : name.Tag
  shortTag : name.Tag
  semVerTags : List name.Tag
  index : IndexData
  digest : Hash
  deriving DecidableEq, Repr

/-- Lines 268-346 of `PushArtefact`: the index with its config manifest and,
when there is an attestation layer, its attestation manifest. -/
def assembleManifests (env : PushEnv) (archive : Blob) (attestLayer : Option BuiltLayer)
    (timestamp : Option Time) (sourceAttestations : List Statement) :
    Except Failure IndexData := do
  let timestamp := match timestamp with
    | none => env.now
    | some t => t
  let indexAnnotations : Annotations := [( CreatedAnnotation, timestamp.RFC3339)]
  let index : IndexData := { emptyIndex with Annotations := indexAnnotations }
  let configAnnotations : Annotations := indexAnnotations
  let configAnnotations :=
    goMapSet configAnnotations ContentInterpreterAnnotation ContentInterpreterKubectlApply
  let config : ImageData :=
    { emptyImage with
      MediaType := OCIManifestSchema1,
      ConfigMediaType := ContentMediaType,
      Annotations := configAnnotations }
  orReturnErr (env.layerFromFile.map (Error.wrapped "creating artefact content layer failed"))
  let configLayer : BuiltLayer := { MediaType := ContentMediaType, Compressed := archive }
  orReturnErr ((env.mutateAppend config configLayer).map
    (Error.wrapped "appeding content to artifact failed"))
  let config := { config with Layers := config.Layers ++ [configLayer] }
  let index := { index with Manifests := index.Manifests ++ [(makeDescriptorWithPlatform, config)] }
  let index ←
    match attestLayer with
    | none => pure index
    | some attestLayer => do
      let attestAnnotations : Annotations := indexAnnotations
      let summary ← orReturn (env.marshalSummaryAnnotation sourceAttestations)
      let attestAnnotations := goMapSet attestAnnotations AttestationsSummaryAnnotation summary
      let attest : ImageData :=
        { emptyImage with
          MediaType := OCIManifestSchema1,
          ConfigMediaType := AttestMediaType,
          Annotations := attestAnnotations }
      orReturnErr ((env.mutateAppend attest attestLayer).map
        (Error.wrapped "appeding attestations to artifact failed"))
      let attest := { attest with Layers := attest.Layers ++ [attestLayer] }
      pure { index with Manifests := index.Manifests ++ [(makeDescriptorWithPlatform, attest)] }
  return index

/-- Lines 268-351 of `PushArtefact`: the assembled index and its digest. -/
def assembleIndex (env : PushEnv) (archive : Blob) (attestLayer : Option BuiltLayer)
    (timestamp : Option Time) (sourceAttestations : List Statement) :
    Except Failure (IndexData × Hash) := do
  let index ← assembleManifests env archive attestLayer timestamp sourceAttestations
  let digest ← orReturn (wrapError "parsing index digest failed" (env.indexDigest index))
  return (index, digest)

/-- Lines 232-351 of `PushArtefact`: everything before the first registry
call. -/
def composeIndex (env : PushEnv) (destinationRef sourceDir : String) (timestamp : Option Time)
    (sourceAttestations : List Statement) : Except Failure Composed := do
  orReturnErr env.mkdirTemp
  orReturnErr env.openFile
  let (archive, sum) ← orReturn (env.buildArtefact sourceDir)
  let attestLayer ← orReturn
    (wrapError "failed to serialise attestations" (BuildAttestations env sourceAttestations))
  let (tag, shortTag) ← nameTags env destinationRef sum
  let semVerTags ← orPanic (SemVerTagsFromAttestations tag sourceAttestations)
  let (index, digest) ← assembleIndex env archive attestLayer timestamp sourceAttestations
  return { tag := tag, shortTag := shortTag, semVerTags := semVerTags, index := index,
           digest := digest }

/-- A call of `PushArtefact` to the registry, with whether it succeeded. -/
inductive RegistryCall where
  | writeIndex (tag : name.Tag) (ok : Bool)
  | tag (tagAlias : name.Tag) (ok : Bool)
  deriving DecidableEq, Repr

/-- A run of `PushArtefact`: the registry calls made, in order, and what the
function returns, the pair `(*PackageRefs, error)` or a panic. -/
structure PushRun where
  trace : List RegistryCall
  result : Except Panic (Option PackageRefs × Option Error)
  deriving DecidableEq, Repr

/-- The loop `for i, tagAlias := range append(semVerTags, shortTag)` of
`PushArtefact`, from iteration `i` on. -/
def aliasLoop (env : PushEnv) (index : IndexData) (digest : Hash) (numSemVerTags : Nat) :
    Nat → List name.Tag → PackageRefs → List RegistryCall → PushRun
  | _, [], refs, trace => { trace := trace, result := .ok (some refs, none) }
  | i, tagAlias :: rest, refs, trace =>
    match env.remoteTag i tagAlias index with
    | some err =>
      { trace := trace ++ [.tag tagAlias false],
        result := .ok (none, some (.wrapped "adding alias tagging failed" err)) }
    | none =>
      let refs :=
        if i < numSemVerTags then
          { refs with SemVer := refs.SemVer.set i (tagAlias.String ++ "@" ++ digest.String) }
        else refs
      aliasLoop env index digest numSemVerTags (i + 1) rest refs (trace ++ [.tag tagAlias true])

/-- Go `(*Client).PushArtefact(ctx, destinationRef, sourceDir, timestamp, sourceAttestations...)`. -/
def PushArtefact (env : PushEnv) (destinationRef sourceDir : String) (timestamp : Option Time)
    (sourceAttestations : List Statement) : PushRun :=
  match composeIndex env destinationRef sourceDir timestamp sourceAttestations with
  | .error (.panic p) => { trace := [], result := .error p }
  | .error (.error err) => { trace := [], result := .ok (none, some err) }
  | .ok c =>
    match env.writeIndex c.tag c.index with
    | some err =>
      { trace := [.writeIndex c.tag false],
        result := .ok (none, some (.wrapped "pushing index failed" err)) }
    | none =>
      let refs : PackageRefs :=
        { Digest := c.digest.String,
          Primary := c.tag.String,
          Short := c.shortTag.String,
          SemVer := List.replicate c.semVerTags.length "" }
      aliasLoop env c.index c.digest c.semVerTags.length 0 (c.semVerTags ++ [c.shortTag]) refs
        [.writeIndex c.tag true]

/-! ### Concrete environments used by the witnesses -/

/-- An environment in which every call succeeds; the archive hashes to the five
bytes `de ad be ef 01`. -/
def okEnv : PushEnv :=
  { ConfigImageTagPrefix := "config.",
    mkdirTemp := none,
    openFile := none,
    buildArtefact := fun _ => .ok ([31, 139, 8], [222, 173, 190, 239, 1]),
    encodeStatements := fun _ => .ok [31, 139, 9],
    gzipClose := none,
    layerFromOpener := none,
    newRepository := fun s => .ok { Name := s },
    now := { RFC3339 := "2024-01-01T00:00:00Z" },
    layerFromFile := none,
    mutateAppend := fun _ _ => none,
    marshalSummaryAnnotation := fun _ => .ok "1 statement",
    indexDigest := fun _ => .ok (sha "1d"),
    writeIndex := fun _ _ => none,
    remoteTag := fun _ _ _ => none }

/-- As `okEnv`, but the registry refuses the first alias tag. -/
def aliasFailEnv : PushEnv :=
  { okEnv with
    remoteTag := fun i _ _ => if i = 0 then some (.external "denied") else none }

/-- As `okEnv`, but the registry refuses the index write. -/
def writeFailEnv : PushEnv :=
  { okEnv with writeIndex := fun _ _ => some (.external "unauthorized") }

/-- As `okEnv`, but the hash accumulator yields a one-byte sum. -/
def shortHashEnv : PushEnv :=
  { okEnv with buildArtefact := fun _ => .ok ([31, 139, 8], [171]) }

/-! ### Reference definitions for the returned references -/

/-- The fully qualified alias string of a semver tag, `tag.String() + "@" +
digest.String()`. -/
def aliasRef (digest : Hash) (t : name.Tag) : String :=
  t.String ++ "@" ++ digest.String

/-! ### Reference definitions and inputs for the plain-image branch -/

/-- The layers of a plain image that the allow-list selects by their own media
type, in layer order, each with the image manifest's annotations; `blob` gives
the stream resolved for a layer digest. -/
def selectedImageLayers (mediaTypes : List MediaType) (manifest : Manifest)
    (blob : Hash → Blob) : List ArtefactInfo :=
  (manifest.Layers.filter (fun l => selected mediaTypes l.MediaType)).map (fun l =>
    { ReadCloser := blob l.Digest,
      MediaType := l.MediaType,
      Annotations := manifest.Annotations,
      Digest := l.Digest.String })

/-- A manifest with a content layer followed by an attestation layer. -/
def mixedManifest : Manifest :=
  { Layers := [contentLayerDescriptor, mismatchLayerDescriptor],
    Annotations := [("org.opencontainers.image.created", "2024-01-01T00:00:00Z")] }

/-- A plain image behind `mixedManifest`; every layer resolves. -/
def mixedImage : Image :=
  { Manifest := .ok mixedManifest,
    Digest := .ok (sha "f0"),
    LayerByDigest := fun l => .ok { Compressed := .ok (packageBlobOf (sha "f0") l) } }

/-! ## Content archiver (`BuildArtefact`) -/

/-- The type bits of an `fs.FileMode`. -/
inductive FileType where
  | regular
  | dir
  | symlink
  | namedPipe
  | socket
  | device
  | charDevice
  | irregular
  deriving DecidableEq, Repr

/-- Go `FileMode.IsRegular()`. -/
def FileType.IsRegular (ft : FileType) : Bool := decide (ft = .regular)

/-- Go `FileMode.IsDir()`. -/
def FileType.IsDir (ft : FileType) : Bool := decide (ft = .dir)

/-- A Go `time.Time` as a count of nanoseconds from the zero time `time.Time{}`. -/
abbrev Instant := Int

/-- Go `time.Time{}`. -/
def zeroTime : Instant := 0

/-- Go `fs.FileInfo` of an operating-system file, with the fields of its
`Sys()` record that `tar.FileInfoHeader` reads. `Mode` holds the type bits of
`fi.Mode()`, `Perm` its permission, setuid, setgid and sticky bits as the
header stores them. -/
structure FileInfo where
  Name : String
  Size : Nat
  Mode : FileType
  Perm : Nat
  ModTime : Instant
  Uid : Nat
  Gid : Nat
  Uname : String
  Gname : String
  AccessTime : Instant
  ChangeTime : Instant
  deriving DecidableEq, Repr

/-- Go `tar.Header`, restricted to the fields `tar.FileInfoHeader` fills;
`Typeflag` is the byte `'0'` (regular), `'2'` (symlink), `'3'` (character
device), `'4'` (block device), `'5'` (directory) or `'6'` (fifo). -/
structure Header where
  Typeflag : Char
  Name : String
  Linkname : String
  Size : Nat
  Mode : Nat
  Uid : Nat
  Gid : Nat
  Uname : String
  Gname : String
  ModTime : Instant
  AccessTime : Instant
  ChangeTime : Instant
  deriving DecidableEq, Repr

/-- Go `tar.FileInfoHeader(fi, link)` of the standard library: name, mode and
modification time from `fi`, size for a regular file, a trailing slash on a
directory name, the link target on a symlink, an error on a socket or an
unknown mode, and owner, group and remaining times from `fi.Sys()`. -/
def FileInfoHeader (fi : FileInfo) (link : String) : Except Error Header :=
  let h : Header :=
    { Typeflag := '0', Name := fi.Name, Linkname := "", Size := 0, Mode := fi.Perm,
      Uid := fi.Uid, Gid := fi.Gid, Uname := fi.Uname, Gname := fi.Gname,
      ModTime := fi.ModTime, AccessTime := fi.AccessTime, ChangeTime := fi.ChangeTime }
  match fi.Mode with
  | .regular => .ok { h with Typeflag := '0', Size := fi.Size }
  | .dir => .ok { h with Typeflag := '5', Name := h.Name ++ "/" }
  | .symlink => .ok { h with Typeflag := '2', Linkname := link }
  | .charDevice => .ok { h with Typeflag := '3' }
  | .device => .ok { h with Typeflag := '4' }
  | .namedPipe => .ok { h with Typeflag := '6' }
  | .socket => .error (.external "archive/tar: sockets not supported")
  | .irregular => .error (.external "archive/tar: unknown file mode")

/-- Go `os.DirEntry`: `Typ` is the result of `Type()`, the type read from the
directory, and `Info` the result of `Info()`. -/
structure DirEntry where
  Typ : FileType
  Info : Except Error FileInfo
  deriving DecidableEq, Repr

/-- One call of the `filepath.WalkDir` callback: the item visited, given by the
path components `rel` of `p` below the walked root (empty for the root
itself), with the results the file system gives for it. -/
structure WalkStep where
  rel : List String
  di : DirEntry
  prevErr : Option Error
  /-- `os.Open(p)` and the bytes the file yields. -/
  openFile : Except Error Blob
  /-- `file.Close()`, called by the deferred `ioutil.CheckClose`. -/
  closeFile : Option Error
  deriving DecidableEq, Repr

/-- The result of `os.Stat(absDir)`. -/
inductive StatResult where
  | ok (fi : FileInfo)
  | notExist
  | otherError (e : Error)
  deriving DecidableEq, Repr

/-- The source handed to `BuildArtefact`, as the file system presents it: the
absolute path, the stat of the root, and the visits of `filepath.WalkDir` in
their (lexical) order. -/
structure SourceTree where
  abs : Except Error String
  stat : StatResult
  walk : List WalkStep
  deriving DecidableEq, Repr

/-- What was handed to the tar writer. -/
inductive TarEvent where
  | header (h : Header)
  | body (b : Blob)
  deriving DecidableEq, Repr

/-- The tar writer on top of the gzip writer on top of `output`: whether a
call fails is a function of what the writer has been handed so far and of the
argument of the call. -/
structure TarWriter where
  writeHeader : List TarEvent → Header → Option Error
  copy : List TarEvent → Blob → Option Error
  closeTar : List TarEvent → Option Error
  closeGzip : List TarEvent → Option Error

/-- How a call of `BuildArtefact` ends: it returns an error (`none` is `nil`),
or it dereferences the nil `dirStat` left by a failed `os.Stat`. -/
inductive ArchiveOutcome where
  | returned (err : Option Error)
  | nilDereference
  deriving DecidableEq, Repr

/-- A run of `BuildArtefact`: the headers and bodies written, in order, and
how the call ends. -/
structure ArchiveRun where
  written : List TarEvent
  outcome : ArchiveOutcome
  deriving DecidableEq, Repr

/-- The path `p` of a visit: the root joined with the components below it. -/
def walkPath (sep : Char) (absDir : String) (rel : List String) : String :=
  rel.foldl (fun p c => p ++ sep.toString ++ c) absDir

/-- Go `filepath.Rel(absDir, p)` for a path `p` that the walk of `absDir`
produced: the components below the root joined by the separator, and `"."`
for the root itself; it does not fail on such a pair. -/
def filepathRel (sep : Char) (rel : List String) : String :=
  if rel.isEmpty then "." else sep.toString.intercalate rel

/-- Go `filepath.ToSlash(path)`: every separator becomes a slash. -/
def filepathToSlash (sep : Char) (path : String) : String :=
  if sep = '/' then path else ⟨path.data.map (fun c => if c = sep then '/' else c)⟩

/-- The section "Remove any environment specific data" of the callback. -/
def removeEnvironmentData (header : Header) : Header :=
  { header with
    Gid := 0, Uid := 0, Uname := "", Gname := "",
    ModTime := zeroTime, AccessTime := zeroTime, ChangeTime := zeroTime }

/-- What one call of the callback does: the events it adds and its result,
`none` for `nil`. -/
structure StepResult where
  written : List TarEvent
  outcome : ArchiveOutcome
  deriving DecidableEq, Repr

/-- The callback passed to `filepath.WalkDir` in `BuildArtefact`; `written` is
what the tar writer holds when the callback is entered, `dirStat` is `none`
when `os.Stat` left it nil. -/
def walkFn (tw : TarWriter) (sep : Char) (absDir : String) (dirStat : Option FileInfo)
    (written : List TarEvent) (s : WalkStep) : StepResult :=
  match s.prevErr with
  | some prevErr => { written := written, outcome := .returned (some prevErr) }
  | none =>
    let ft := s.di.Typ
    if !(ft.IsRegular || ft.IsDir) then
      { written := written, outcome := .returned none }
    else
      match s.di.Info with
      | .error err => { written := written, outcome := .returned (some err) }
      | .ok fi =>
        match FileInfoHeader fi (walkPath sep absDir s.rel) with
        | .error err => { written := written, outcome := .returned (some err) }
        | .ok header =>
          match dirStat with
          | none => { written := written, outcome := .nilDereference }
          | some dirStat =>
            let header :=
              if dirStat.Mode.IsDir then
                { header with Name := filepathToSlash sep (filepathRel sep s.rel) }
              else header
            let header := removeEnvironmentData header
            match tw.writeHeader written header with
            | some err => { written := written, outcome := .returned (some err) }
            | none =>
              let written := written ++ [.header header]
              if !ft.IsRegular then
                { written := written, outcome := .returned none }
              else
                match s.openFile with
                | .error err => { written := written, outcome := .returned (some err) }
                | .ok file =>
                  match tw.copy written file with
                  | some err => { written := written, outcome := .returned (some err) }
                  | none =>
                    { written := written ++ [.body file], outcome := .returned s.closeFile }

/-- Go `filepath.WalkDir(absDir, fn)` over the visits: the walk stops at the
first visit whose callback does not return `nil`. -/
def walkDir (tw : TarWriter) (sep : Char) (absDir : String) (dirStat : Option FileInfo) :
    List WalkStep → List TarEvent → StepResult
  | [], written => { written := written, outcome := .returned none }
  | s :: rest, written =>
    match walkFn tw sep absDir dirStat written s with
    | { written := written, outcome := .returned none } =>
      walkDir tw sep absDir dirStat rest written
    | r => r

/-- Go `(*Client).BuildArtefact(artifactPath, sourceDir, output)`; `sep` is the
path separator of the host. -/
def BuildArtefact (tw : TarWriter) (sep : Char) (tree : SourceTree) : ArchiveRun :=
  match tree.abs with
  | .error err => { written := [], outcome := .returned (some err) }
  | .ok absDir =>
    match tree.stat with
    | .notExist =>
      { written := [],
        outcome := .returned (some (.external ("invalid source dir path: " ++ absDir))) }
    | stat =>
      let dirStat : Option FileInfo :=
        match stat with
        | .ok fi => some fi
        | _ => none
      match walkDir tw sep absDir dirStat tree.walk [] with
      | { written := written, outcome := .returned none } =>
        match tw.closeTar written with
        | some err => { written := written, outcome := .returned (some err) }
        | none =>
          match tw.closeGzip written with
          | some err => { written := written, outcome := .returned (some err) }
          | none => { written := written, outcome := .returned none }
      | r => { written := r.written, outcome := r.outcome }

/-! ### Reference definitions and inputs for the content archiver -/

/-- The slash-separated path of a visit relative to the source root, `"."` for
the root itself. -/
def slashPath (rel : List String) : String :=
  if rel.isEmpty then "." else "/".intercalate rel

/-- A visit of a regular file or a directory. -/
def WalkStep.isFileOrDir (s : WalkStep) : Bool := s.di.Typ.IsRegular || s.di.Typ.IsDir

/-- A file info without the data of its environment: owner and group ids and
names and the three times are cleared. -/
def FileInfo.withoutEnvironment (fi : FileInfo) : FileInfo :=
  { fi with
    Uid := 0, Gid := 0, Uname := "", Gname := "",
    ModTime := zeroTime, AccessTime := zeroTime, ChangeTime := zeroTime }

/-- A visit with the environment data of its file info cleared. -/
def WalkStep.withoutEnvironment (s : WalkStep) : WalkStep :=
  { s with di := { s.di with Info := s.di.Info.map FileInfo.withoutEnvironment } }

/-- A source tree with the environment data of every file info cleared: what
is left is paths, entry types, modes, sizes, contents and the results of the
file-system calls. -/
def SourceTree.withoutEnvironment (t : SourceTree) : SourceTree :=
  { t with
    stat := match t.stat with
      | .ok fi => .ok fi.withoutEnvironment
      | r => r
    walk := t.walk.map WalkStep.withoutEnvironment }

/-- The header the archive holds for a visited file or directory with file
info `fi`, in a source rooted at a directory. -/
def entryHeader (rel : List String) (fi : FileInfo) : Header :=
  { Typeflag := if fi.Mode = .regular then '0' else '5',
    Name := slashPath rel,
    Linkname := "",
    Size := if fi.Mode = .regular then fi.Size else 0,
    Mode := fi.Perm,
    Uid := 0, Gid := 0, Uname := "", Gname := "",
    ModTime := zeroTime, AccessTime := zeroTime, ChangeTime := zeroTime }

/-- A header free of environment data: owner and group ids are 0, owner and
group names are empty, and the three times are the zero time. -/
def Header.EnvironmentFree (h : Header) : Prop :=
  h.Uid = 0 ∧ h.Gid = 0 ∧ h.Uname = "" ∧ h.Gname = "" ∧
    h.ModTime = zeroTime ∧ h.AccessTime = zeroTime ∧ h.ChangeTime = zeroTime

instance (h : Header) : Decidable h.EnvironmentFree := by
  unfold Header.EnvironmentFree
  infer_instance

/-- What the archive holds for a visited file or directory: its header and,
for a regular file, its bytes; `info` and `content` give the file info and the
bytes the file system serves for a visit. -/
def entryEvents (info : WalkStep → FileInfo) (content : WalkStep → Blob) (s : WalkStep) :
    List TarEvent :=
  .header (entryHeader s.rel (info s)) ::
    (if s.di.Typ.IsRegular then [.body (content s)] else [])

/-- The archive of a walk: the entries of its regular files and directories,
in walk order. -/
def archiveEvents (info : WalkStep → FileInfo) (content : WalkStep → Blob)
    (walk : List WalkStep) : List TarEvent :=
  (walk.filter WalkStep.isFileOrDir).flatMap (entryEvents info content)

/-- The file info a well-served visit carries, and a zero record otherwise. -/
def WalkStep.infoOrZero (s : WalkStep) : FileInfo :=
  match s.di.Info with
  | .ok fi => fi
  | .error _ =>
    { Name := "", Size := 0, Mode := .irregular, Perm := 0, ModTime := 0, Uid := 0, Gid := 0,
      Uname := "", Gname := "", AccessTime := 0, ChangeTime := 0 }

/-- The bytes a well-served visit yields, and none otherwise. -/
def WalkStep.contentOrEmpty (s : WalkStep) : Blob :=
  match s.openFile with
  | .ok b => b
  | .error _ => []

/-- The names of the headers among the events written. -/
def headerNames (events : List TarEvent) : List String :=
  events.filterMap (fun e => match e with
    | .header h => some h.Name
    | .body _ => none)

/-- A tar writer that never fails. -/
def okTarWriter : TarWriter :=
  { writeHeader := fun _ _ => none,
    copy := fun _ _ => none,
    closeTar := fun _ => none,
    closeGzip := fun _ => none }

/-- A file info with the given name, size, type and owner, all times `t`. -/
def sampleInfo (name : String) (size : Nat) (mode : FileType) (owner : Nat) (user : String)
    (t : Instant) : FileInfo :=
  { Name := name, Size := size, Mode := mode, Perm := 420, ModTime := t, Uid := owner,
    Gid := owner, Uname := user, Gname := user, AccessTime := t, ChangeTime := t }

/-- A visit that the file system serves without error. -/
def sampleStep (rel : List String) (name : String) (mode : FileType) (content : Blob)
    (owner : Nat) (user : String) (t : Instant) : WalkStep :=
  { rel := rel,
    di := { Typ := mode, Info := .ok (sampleInfo name content.length mode owner user t) },
    prevErr := none,
    openFile := .ok content,
    closeFile := none }

/-- A source directory with a sub-directory, a manifest file in it and a
symlink, owned by `owner` and last touched at `t`. -/
def sampleTree (owner : Nat) (user : String) (t : Instant) : SourceTree :=
  { abs := .ok "/src",
    stat := .ok (sampleInfo "src" 4096 .dir owner user t),
    walk := [
      sampleStep [] "src" .dir [] owner user t,
      sampleStep ["app"] "app" .dir [] owner user t,
      sampleStep ["app", "deploy.yaml"] "deploy.yaml" .regular [107, 105, 110, 100] owner user t,
      sampleStep ["latest"] "latest" .symlink [] owner user t] }

/-! ### Source trees with the same content -/

/-- Two file infos of visited files or directories with the same content: the
same type and mode bits, the same size when they are regular files, and, when
the source root is not a directory, the same base name (the name the header
then keeps). Owner, group, times, and the size of a directory are free. A file
info that turns out to be a symlink passes the absolute path of the visit to
`tar.FileInfoHeader` as link target, so the two roots must then agree. -/
def sameInfo (rootIsDir : Bool) (abs1 abs2 : String) (f1 f2 : FileInfo) : Bool :=
  decide (f1.Mode = f2.Mode) && decide (f1.Perm = f2.Perm) &&
    (decide (f1.Mode ≠ .regular) || decide (f1.Size = f2.Size)) &&
    (rootIsDir || decide (f1.Name = f2.Name)) &&
    (decide (f1.Mode ≠ .symlink) || decide (abs1 = abs2))

/-- The results of `Info()` of two visits agree: the same error, or file infos
with the same content. -/
def sameInfoResult (rootIsDir : Bool) (abs1 abs2 : String) :
    Except Error FileInfo → Except Error FileInfo → Bool
  | .ok f1, .ok f2 => sameInfo rootIsDir abs1 abs2 f1 f2
  | .error e1, .error e2 => decide (e1 = e2)
  | _, _ => false

/-- Two visits with the same content: the same relative path, entry type and
walk error; for a regular file or directory the same `Info()` result up to
`sameInfo`; for a regular file the same bytes and the same result of closing. -/
def sameStep (rootIsDir : Bool) (abs1 abs2 : String) (s1 s2 : WalkStep) : Bool :=
  decide (s1.rel = s2.rel) && decide (s1.di.Typ = s2.di.Typ) &&
    decide (s1.prevErr = s2.prevErr) &&
    (!s1.isFileOrDir ||
      (sameInfoResult rootIsDir abs1 abs2 s1.di.Info s2.di.Info &&
        (!s1.di.Typ.IsRegular ||
          (decide (s1.openFile = s2.openFile) && decide (s1.closeFile = s2.closeFile)))))

/-- Two walks with the same content, visit by visit. -/
def sameWalk (rootIsDir : Bool) (abs1 abs2 : String) : List WalkStep → List WalkStep → Bool
  | [], [] => true
  | s1 :: r1, s2 :: r2 => sameStep rootIsDir abs1 abs2 s1 s2 && sameWalk rootIsDir abs1 abs2 r1 r2
  | _, _ => false

/-- Two source trees with the same relative paths, entry types, modes, sizes
and file contents. Their absolute paths, the name and the stat record of their
roots, the sizes of their directories, and every owner, group and time may
differ; the roots are both directories or both not. Two sources that do not
exist must have the same path (it is part of the error returned), and failing
calls must fail alike. -/
def sameContent (t1 t2 : SourceTree) : Bool :=
  match t1.abs, t2.abs with
  | .ok abs1, .ok abs2 =>
    match t1.stat, t2.stat with
    | .ok r1, .ok r2 =>
      decide (r1.Mode.IsDir = r2.Mode.IsDir) && sameWalk r1.Mode.IsDir abs1 abs2 t1.walk t2.walk
    | .otherError _, .otherError _ => sameWalk false abs1 abs2 t1.walk t2.walk
    | .notExist, .notExist => decide (abs1 = abs2)
    | _, _ => false
  | .error e1, .error e2 => decide (e1 = e2)
  | _, _ => false

/-- The sample tree checked out at another place by another user: absolute
path `abs`, root directory named `rootName`, directories of size `dirSize`. -/
def sampleTreeAt (abs rootName : String) (dirSize owner : Nat) (user : String) (t : Instant) :
    SourceTree :=
  { abs := .ok abs,
    stat := .ok (sampleInfo rootName dirSize .dir owner user t),
    walk := [
      { sampleStep [] rootName .dir [] owner user t with
        di := { Typ := .dir, Info := .ok (sampleInfo rootName dirSize .dir owner user t) } },
      { sampleStep ["app"] "app" .dir [] owner user t with
        di := { Typ := .dir, Info := .ok (sampleInfo "app" dirSize .dir owner user t) } },
      sampleStep ["app", "deploy.yaml"] "deploy.yaml" .regular [107, 105, 110, 100] owner user t,
      sampleStep ["latest"] "latest" .symlink [47, 116, 109, 112] owner user t] }

/-! ### Entry names by the kind of the source root -/

/-- The name of the archive entry of a visited file or directory: its
slash-separated path relative to the root when the source root is a directory,
and otherwise the name `tar.FileInfoHeader` gave it, the base name of its file
info (with a trailing slash on a directory). -/
def entryName (rootIsDir : Bool) (rel : List String) (fi : FileInfo) : String :=
  if rootIsDir then slashPath rel
  else if fi.Mode = .dir then fi.Name ++ "/" else fi.Name

/-- What the archive holds for a visited file or directory under a root of the
given kind: `entryEvents` with the header named by `entryName`. -/
def entryEventsIn (rootIsDir : Bool) (info : WalkStep → FileInfo) (content : WalkStep → Blob)
    (s : WalkStep) : List TarEvent :=
  .header { entryHeader s.rel (info s) with Name := entryName rootIsDir s.rel (info s) } ::
    (if s.di.Typ.IsRegular then [.body (content s)] else [])

/-- The archive of a walk under a root of the given kind. -/
def archiveEventsIn (rootIsDir : Bool) (info : WalkStep → FileInfo) (content : WalkStep → Blob)
    (walk : List WalkStep) : List TarEvent :=
  (walk.filter WalkStep.isFileOrDir).flatMap (entryEventsIn rootIsDir info content)

/-- A source that is the single regular file `/src/deploy.yaml`: the walk
visits the root alone. -/
def fileSourceTree : SourceTree :=
  { abs := .ok "/src/deploy.yaml",
    stat := .ok (sampleInfo "deploy.yaml" 4 .regular 1000 "ilya" 1700000000),
    walk := [sampleStep [] "deploy.yaml" .regular [107, 105, 110, 100] 1000 "ilya" 1700000000] }

/-! # Theorems -/


/-! ## Theorems: tag derivation engine -/

theorem contains_eq_true_iff (l : List String) (t : String) : l.contains t = true ↔ t ∈ l := by
  simp

theorem tagSet_add_of_seen (s : tagSet) (t : String) (image : name.Tag)
    (h : normaliseTagName t ∈ s.set) : s.add t image = s := by
  have hc := (contains_eq_true_iff s.set (normaliseTagName t)).2 h
  unfold tagSet.add
  unfold normaliseTagName at hc
  cases hp : strings.HasPrefix t "v" <;> simp [hp] at hc ⊢ <;> simp [hc]

theorem tagSet_add_of_invalid (s : tagSet) (t : String) (image : name.Tag)
    (h : semver.IsValid (normaliseTagName t) = false) : s.add t image = s := by
  unfold tagSet.add
  unfold normaliseTagName at h
  cases hp : strings.HasPrefix t "v" <;> simp [hp] at h ⊢ <;> simp [h]

theorem tagSet_add_of_new (s : tagSet) (t : String) (image : name.Tag)
    (hs : normaliseTagName t ∉ s.set) (h : semver.IsValid (normaliseTagName t) = true) :
    s.add t image =
      { list := s.list ++ [image.Context.Tag (normaliseTagName t)],
        set := normaliseTagName t :: s.set } := by
  have hc : s.set.contains (normaliseTagName t) = false := by
    cases hcc : s.set.contains (normaliseTagName t)
    · rfl
    · exact absurd ((contains_eq_true_iff _ _).1 hcc) hs
  unfold tagSet.add
  unfold normaliseTagName at h hc ⊢
  cases hp : strings.HasPrefix t "v" <;> simp [hp] at h hc ⊢ <;> simp [h, hc]

theorem filter_ne_filter_of_mem (seen : List String) (t : String) (l : List String)
    (h : t ∈ seen) :
    (l.filter (fun y => y != t)).filter (fun y => !(seen.contains y)) =
      l.filter (fun y => !(seen.contains y)) := by
  rw [List.filter_filter]
  apply List.filter_congr
  intro y _
  by_cases hy : y = t
  · subst hy
    simp [h]
  · simp [hy]

theorem filter_ne_filter_cons (seen : List String) (t : String) (l : List String) :
    (l.filter (fun y => y != t)).filter (fun y => !(seen.contains y)) =
      l.filter (fun y => !((t :: seen).contains y)) := by
  rw [List.filter_filter]
  apply List.filter_congr
  intro y _
  by_cases hy : y = t
  · subst hy
    simp
  · simp [hy]

theorem foldl_add_list (image : name.Tag) (names : List String) (s : tagSet) :
    (names.foldl (fun s t => s.add t image) s).list =
      s.list ++ ((dropLaterDuplicates ((names.map normaliseTagName).filter semver.IsValid)).filter
        (fun y => !(s.set.contains y))).map (fun t => image.Context.Tag t) := by
  induction names generalizing s with
  | nil => simp [dropLaterDuplicates]
  | cons n ns ih =>
    rw [List.foldl_cons, ih]
    by_cases hv : semver.IsValid (normaliseTagName n) = true
    · by_cases hseen : normaliseTagName n ∈ s.set
      · rw [tagSet_add_of_seen s n image hseen]
        simp only [List.map_cons, List.filter_cons, hv, if_true, dropLaterDuplicates]
        have hc := (contains_eq_true_iff s.set (normaliseTagName n)).2 hseen
        simp only [hc, Bool.not_true, Bool.false_eq_true, if_false]
        rw [filter_ne_filter_of_mem _ _ _ hseen]
      · rw [tagSet_add_of_new s n image hseen hv]
        have hc : s.set.contains (normaliseTagName n) = false := by
          cases hcc : s.set.contains (normaliseTagName n)
          · rfl
          · exact absurd ((contains_eq_true_iff _ _).1 hcc) hseen
        simp only [List.map_cons, List.filter_cons, hv, if_true, dropLaterDuplicates, hc,
          Bool.not_false, List.append_assoc, List.singleton_append]
        rw [filter_ne_filter_cons]
    · have hv2 : semver.IsValid (normaliseTagName n) = false := by
        cases h : semver.IsValid (normaliseTagName n)
        · rfl
        · exact absurd h hv
      rw [tagSet_add_of_invalid s n image hv2]
      simp only [List.map_cons, List.filter_cons, hv2, Bool.false_eq_true, if_false]

theorem foldl_add_fresh (image : name.Tag) (names : List String) (c : Nat) :
    (names.foldl (fun s t => s.add t image) (newTagtagSet c)).list =
      tagSetReference image names := by
  rw [foldl_add_list]
  simp [newTagtagSet, tagSetReference]

/-- C2: on a fresh tag set, calling `tagSet.add` on a sequence of names yields
exactly the reference list: names normalised by prepending "v" unless already
present, only valid semantic versions kept, later duplicates of a normalised
string dropped, first-seen order kept, each expressed as a tag of the image's
repository. -/
theorem tagSet_add_refines_reference (image : name.Tag) (names : List String) (c : Nat) :
    (names.foldl (fun s t => s.add t image) (newTagtagSet c)).list =
      tagSetReference image names :=
  foldl_add_fresh image names c

theorem addAll_eq_reference (image : name.Tag) (names : List String) :
    addAll image names = tagSetReference image names :=
  foldl_add_fresh image names names.length

theorem semVerLoop_split (path : String) (tag : name.Tag) (names : List String)
    (a b : tagSet) :
    names.foldl (semVerLoopBody path tag) (a, b) =
      ((names.filter (fun t => !(strings.HasPrefix t (path ++ "/")))).foldl
          (fun s t => s.add t tag) a,
        ((names.filter (fun t => strings.HasPrefix t (path ++ "/"))).map
          (fun t => strings.TrimPrefix t (path ++ "/"))).foldl (fun s t => s.add t tag) b) := by
  induction names generalizing a b with
  | nil => rfl
  | cons n ns ih =>
    rw [List.foldl_cons]
    cases hp : strings.HasPrefix n (path ++ "/")
    · simp only [semVerLoopBody, hp, Bool.false_eq_true, if_false, ih, List.filter_cons,
        Bool.not_false, if_true, List.foldl_cons]
    · simp only [semVerLoopBody, hp, if_true, ih, List.filter_cons, Bool.not_true,
        Bool.false_eq_true, if_false, List.map_cons, List.foldl_cons]

theorem semVerLoop_lists (path : String) (tag : name.Tag) (names : List String) (c : Nat) :
    (names.foldl (semVerLoopBody path tag) (newTagtagSet c, newTagtagSet c)).1.list =
        globalSet tag path names ∧
      (names.foldl (semVerLoopBody path tag) (newTagtagSet c, newTagtagSet c)).2.list =
        scopedSet tag path names := by
  rw [semVerLoop_split]
  constructor
  · simp only [globalSet, addAll_eq_reference, foldl_add_fresh]
  · simp only [scopedSet, addAll_eq_reference, foldl_add_fresh]

/-- C1: when exactly one manifest-directory statement is supplied and it passes
the guards (the single provider "git", a single entry group whose first summary
is a git summary with path `P`), the result is exactly the scoped set (tags
built from the names prefixed by `P + "/"`, prefix stripped) whenever that set
is non-empty, and otherwise exactly the global set (tags built from the
remaining names). -/
theorem semVerTags_scoped_else_global (tag : name.Tag) (sts : List Statement) (st : Statement)
    (gs : git.Summary) (rest : List PathCheckSummary)
    (hfilter : FilterByPredicateType ManifestDirPredicateType sts = [st])
    (hprov : st.VCSEntries.Providers = [git.ProviderName])
    (hgroups : st.VCSEntries.EntryGroups = [{ Full := .git gs } :: rest]) :
    SemVerTagsFromAttestations tag sts =
      .ok (if scopedSet tag gs.Path (gs.Tags.map (fun x => x.Name)) ≠ []
        then scopedSet tag gs.Path (gs.Tags.map (fun x => x.Name))
        else globalSet tag gs.Path (gs.Tags.map (fun x => x.Name))) := by
  obtain ⟨hg, hs⟩ := semVerLoop_lists gs.Path tag (gs.Tags.map (fun x => x.Name)) gs.Tags.length
  obtain ⟨pt, provs, groups⟩ := st
  simp only at hprov hgroups
  subst hprov hgroups
  unfold SemVerTagsFromAttestations
  by_cases hn : gs.Tags = []
  · simp [hfilter, goIndex, hn, scopedSet, globalSet, addAll, newTagtagSet, bind, Except.bind,
      pure, Except.pure]
  · by_cases hsc : scopedSet tag gs.Path (gs.Tags.map (fun x => x.Name)) = []
    · simp [hfilter, goIndex, hn, hg, hs, hsc, bind, Except.bind, pure, Except.pure]
    · have hpos : 0 < (scopedSet tag gs.Path (gs.Tags.map (fun x => x.Name))).length :=
        List.length_pos.2 hsc
      simp [hfilter, goIndex, hn, hg, hs, hsc, hpos, bind, Except.bind, pure, Except.pure]

/-- C1 witness: raw tags `["0.0.1", "v0.0.1", "podinfo/v6.6.3"]` with summary
path `"podinfo"` give `["v6.6.3"]`, not the global `["v0.0.1"]`. -/
theorem semVerTags_scoped_else_global_witness :
    SemVerTagsFromAttestations testImage [podinfoStatement] =
      .ok [testImage.Context.Tag "v6.6.3"] ∧
    globalSet testImage "podinfo" ["0.0.1", "v0.0.1", "podinfo/v6.6.3"] =
      [testImage.Context.Tag "v0.0.1"] := by
  have h := semVerTags_scoped_else_global testImage [podinfoStatement] podinfoStatement
    podinfoSummary [] (by decide) (by decide) (by decide)
  rw [h]
  decide

/-- The test case of the repository for C2: adding "0.0.1", "v0.0.1" and
"podinfo/v6.6.3" to a fresh set yields the single tag "v0.0.1". -/
theorem tagSet_add_test_case :
    (["0.0.1", "v0.0.1", "podinfo/v6.6.3"].foldl (fun s t => s.add t testImage)
        (newTagtagSet 3)).list = [testImage.Context.Tag "v0.0.1"] := by
  decide

/-- C3 (failing input): a single manifest-directory statement with the one
provider "git" but two entry groups passes the guard
`len(EntryGroups) != 1 && len(Providers) != 1 || Providers[0] != git.ProviderName`
and yields the tags of the first group; so does a statement with one entry
group and two providers of which the first is "git". -/
theorem semVerTags_guard_admits_two_groups :
    SemVerTagsFromAttestations testImage
        [manifestDirStatement ["git"] [[{ Full := .git podinfoSummary }], []]] =
      .ok [testImage.Context.Tag "v6.6.3"] ∧
    SemVerTagsFromAttestations testImage
        [manifestDirStatement ["git", "hg"] [[{ Full := .git podinfoSummary }]]] =
      .ok [testImage.Context.Tag "v6.6.3"] := by
  decide

/-- C4 (failing input): with one entry group and no provider the guard
evaluates `Providers[0]` on an empty slice, and with the provider "git" and no
entry group the code evaluates `EntryGroups[0]` on an empty slice: both runs
end in an index-out-of-range panic instead of an empty list. -/
theorem semVerTags_panics_on_empty_slices :
    SemVerTagsFromAttestations testImage
        [manifestDirStatement [] [[{ Full := .git podinfoSummary }]]] =
      .error (.indexOutOfRange 0 0) ∧
    SemVerTagsFromAttestations testImage [manifestDirStatement ["git"] []] =
      .error (.indexOutOfRange 0 0) := by
  decide

/-- C5: if the number of statements whose predicate type is the
manifest-directory predicate type is not exactly one, the result is the empty
list, whatever the statements carry. -/
theorem semVerTags_empty_unless_one_statement (tag : name.Tag) (sts : List Statement)
    (h : (FilterByPredicateType ManifestDirPredicateType sts).length ≠ 1) :
    SemVerTagsFromAttestations tag sts = .ok [] := by
  unfold SemVerTagsFromAttestations
  simp [h, pure, Except.pure]

/-- C5 witness: two manifest-directory statements, each of which alone yields
the tag "v6.6.3", yield no tag together. -/
theorem semVerTags_empty_unless_one_statement_witness :
    (FilterByPredicateType ManifestDirPredicateType
        [podinfoStatement, podinfoStatement]).length ≠ 1 ∧
      SemVerTagsFromAttestations testImage [podinfoStatement, podinfoStatement] = .ok [] :=
  ⟨by decide,
    semVerTags_empty_unless_one_statement testImage [podinfoStatement, podinfoStatement]
      (by decide)⟩



/-! ## Theorems: artefact fetcher -/

theorem mem_makeSelector_aux (mediaTypes acc : List MediaType) (t : MediaType) :
    t ∈ mediaTypes.foldl (fun selector mediaType => mediaType :: selector) acc ↔
      t ∈ mediaTypes ∨ t ∈ acc := by
  induction mediaTypes generalizing acc with
  | nil => simp
  | cons m ms ih =>
    rw [List.foldl_cons, ih]
    simp only [List.mem_cons]
    tauto

theorem makeSelector_contains (mediaTypes : List MediaType) (t : MediaType) :
    (makeSelector mediaTypes).contains t = decide (t ∈ mediaTypes) := by
  have h := mem_makeSelector_aux mediaTypes [] t
  simp only [List.not_mem_nil, or_false] at h
  unfold makeSelector
  by_cases ht : t ∈ mediaTypes
  · simp [ht, h.2 ht]
  · have h2 : t ∉ List.foldl (fun selector mediaType => mediaType :: selector) [] mediaTypes :=
      fun hc => ht (h.1 hc)
    simp [ht, h2]

theorem skip_eq_not_selected (mediaTypes : List MediaType) (t : MediaType) :
    skip mediaTypes t = !(selected mediaTypes t) := by
  unfold skip selected
  rw [makeSelector_contains]
  cases mediaTypes with
  | nil => simp
  | cons m ms =>
    by_cases ht : t ∈ m :: ms
    · simp [ht]
    · simp [ht]

theorem indexLayersLoop_mismatch_error (image : Image) (d : Descriptor) (m : Manifest)
    (layers : List Descriptor) (acc : List ArtefactInfo) (l : Descriptor)
    (hl : l ∈ layers) (hne : l.MediaType ≠ d.ArtifactType) :
    ∃ e, indexLayersLoop image d m layers acc = .error e := by
  induction layers generalizing acc with
  | nil => cases hl
  | cons x xs ih =>
    unfold indexLayersLoop
    by_cases hx : x.MediaType = d.ArtifactType
    · have hl2 : l ∈ xs := by
        rcases List.mem_cons.1 hl with h | h
        · subst h; exact absurd hx hne
        · exact h
      simp only [hx, bne_self_eq_false, Bool.false_eq_true, if_false]
      cases hinfo : newArtifcatInfoFromLayerDescriptor image x m.Annotations with
      | error e => exact ⟨e, rfl⟩
      | ok info => exact ih _ hl2
    · have : (x.MediaType != d.ArtifactType) = true := by simp [hx]
      simp only [this, if_true]
      exact ⟨_, rfl⟩

theorem indexLayersLoop_ok_or_mismatch (image : Image) (d : Descriptor) (m : Manifest)
    (layers : List Descriptor) (acc : List ArtefactInfo)
    (hres : ∀ l ∈ layers, ∃ info, newArtifcatInfoFromLayerDescriptor image l m.Annotations = .ok info) :
    (∃ r, indexLayersLoop image d m layers acc = .ok r) ∨
      ∃ l ∈ layers, l.MediaType ≠ d.ArtifactType ∧
        indexLayersLoop image d m layers acc =
          .error (.mediaTypeMismatch d.MediaType l.MediaType) := by
  induction layers generalizing acc with
  | nil => exact Or.inl ⟨acc, rfl⟩
  | cons x xs ih =>
    unfold indexLayersLoop
    by_cases hx : x.MediaType = d.ArtifactType
    · simp only [hx, bne_self_eq_false, Bool.false_eq_true, if_false]
      obtain ⟨info, hinfo⟩ := hres x (List.mem_cons_self _ _)
      rw [hinfo]
      rcases ih (acc ++ [info]) (fun l hl => hres l (List.mem_cons_of_mem _ hl)) with h | h
      · exact Or.inl h
      · obtain ⟨l, hl, hne, he⟩ := h
        exact Or.inr ⟨l, List.mem_cons_of_mem _ hl, hne, he⟩
    · have : (x.MediaType != d.ArtifactType) = true := by simp [hx]
      simp only [this, if_true]
      exact Or.inr ⟨x, List.mem_cons_self _ _, hx, rfl⟩

theorem indexManifestsLoop_mismatch_error (imageIndex : ImageIndex) (mediaTypes : List MediaType)
    (ds : List Descriptor) (arts : List ArtefactInfo) (mans : List (Hash × Manifest))
    (d : Descriptor) (img : Image) (m : Manifest) (l : Descriptor)
    (hd : d ∈ ds) (hsel : selected mediaTypes d.ArtifactType = true)
    (hget : getImage imageIndex d.Digest = .ok (img, m))
    (hl : l ∈ m.Layers) (hne : l.MediaType ≠ d.ArtifactType) :
    ∃ e, indexManifestsLoop imageIndex mediaTypes ds arts mans = .error e := by
  induction ds generalizing arts mans with
  | nil => cases hd
  | cons x xs ih =>
    unfold indexManifestsLoop
    rcases List.mem_cons.1 hd with hx | hx
    · subst hx
      simp only [skip_eq_not_selected, hsel, Bool.not_true, Bool.false_eq_true, if_false, hget]
      obtain ⟨e, he⟩ := indexLayersLoop_mismatch_error img d m m.Layers arts l hl hne
      rw [he]
      exact ⟨e, rfl⟩
    · cases hs : skip mediaTypes x.ArtifactType
      · simp only [Bool.false_eq_true, if_false]
        cases hg : getImage imageIndex x.Digest with
        | error e => exact ⟨e, rfl⟩
        | ok p =>
          obtain ⟨image, manifest⟩ := p
          simp only
          cases hloop : indexLayersLoop image x manifest manifest.Layers arts with
          | error e => exact ⟨e, rfl⟩
          | ok r => exact ih _ _ hx
      · simp only [if_true]
        exact ih _ _ hx

theorem indexManifestsLoop_mismatch_kind (imageIndex : ImageIndex) (mediaTypes : List MediaType)
    (ds : List Descriptor) (arts : List ArtefactInfo) (mans : List (Hash × Manifest))
    (hres : AllResolve imageIndex mediaTypes { Manifests := ds })
    (e : Error) (he : indexManifestsLoop imageIndex mediaTypes ds arts mans = .error e) :
    ∃ d ∈ ds, ∃ img m, getImage imageIndex d.Digest = .ok (img, m) ∧
      ∃ l ∈ m.Layers, l.MediaType ≠ d.ArtifactType ∧
        e = .mediaTypeMismatch d.MediaType l.MediaType := by
  induction ds generalizing arts mans with
  | nil => simp [indexManifestsLoop] at he
  | cons x xs ih =>
    have hres2 : AllResolve imageIndex mediaTypes { Manifests := xs } :=
      fun d hd hs => hres d (List.mem_cons_of_mem _ hd) hs
    unfold indexManifestsLoop at he
    cases hs : skip mediaTypes x.ArtifactType
    · have hsel : selected mediaTypes x.ArtifactType = true := by
        rw [skip_eq_not_selected] at hs
        simpa using hs
      obtain ⟨img, m, hget, hlay⟩ := hres x (List.mem_cons_self _ _) hsel
      simp only [hs, Bool.false_eq_true, if_false, hget] at he
      rcases indexLayersLoop_ok_or_mismatch img x m m.Layers arts hlay with h | h
      · obtain ⟨r, hr⟩ := h
        rw [hr] at he
        obtain ⟨d, hd, rest⟩ := ih _ _ hres2 he
        exact ⟨d, List.mem_cons_of_mem _ hd, rest⟩
      · obtain ⟨l, hl, hne, hr⟩ := h
        rw [hr] at he
        simp only [Except.error.injEq] at he
        exact ⟨x, List.mem_cons_self _ _, img, m, hget, l, hl, hne, he.symm⟩
    · simp only [hs, if_true] at he
      obtain ⟨d, hd, rest⟩ := ih _ _ hres2 he
      exact ⟨d, List.mem_cons_of_mem _ hd, rest⟩

/-- C7 (as stated, refuted): the index of the claim's witness (its manifest
declares the content media type, its sole layer carries the attestation media
type) fetched with the allow-list `[AttestMediaType]` returns successfully
with no artefact: the mismatching manifest is skipped by the allow-list, and
its layers are never compared. -/
theorem fetch_mismatch_skipped_by_allow_list :
    (∃ l ∈ mismatchManifest.Layers, l.MediaType ≠ mismatchDescriptor.ArtifactType) ∧
    mismatchDescriptor ∈ mismatchIndexManifest.Manifests ∧
    getImage mismatchIndex mismatchDescriptor.Digest = .ok (mismatchImage, mismatchManifest) ∧
    FetchFromIndexOrImage mismatchIndex (some mismatchIndexManifest) mismatchImage
      [AttestMediaType] = .ok ([], []) := by
  refine ⟨⟨mismatchLayerDescriptor, by decide, by decide⟩, by decide, rfl, ?_⟩
  decide

/-- C7 (amended): if a manifest of the index that the allow-list selects (the
list is empty or holds its declared artifact type) resolves and has a layer
whose media type differs from that declared artifact type, the fetch returns
an error and no artefacts; when moreover every selected image and layer
resolves, the error is the media-type-mismatch error of a selected manifest
and one of its disagreeing layers. -/
theorem fetch_mismatch_in_selected_manifest_fails (imageIndex : ImageIndex)
    (indexManifest : IndexManifest) (image : Image) (mediaTypes : List MediaType)
    (d : Descriptor) (img : Image) (m : Manifest) (l : Descriptor)
    (hd : d ∈ indexManifest.Manifests) (hsel : selected mediaTypes d.ArtifactType = true)
    (hget : getImage imageIndex d.Digest = .ok (img, m))
    (hl : l ∈ m.Layers) (hne : l.MediaType ≠ d.ArtifactType) :
    (∃ e, FetchFromIndexOrImage imageIndex (some indexManifest) image mediaTypes = .error e) ∧
    (AllResolve imageIndex mediaTypes indexManifest →
      ∃ d2 ∈ indexManifest.Manifests, ∃ img2 m2,
        getImage imageIndex d2.Digest = .ok (img2, m2) ∧
        ∃ l2 ∈ m2.Layers, l2.MediaType ≠ d2.ArtifactType ∧
          FetchFromIndexOrImage imageIndex (some indexManifest) image mediaTypes =
            .error (.mediaTypeMismatch d2.MediaType l2.MediaType)) := by
  obtain ⟨e, he⟩ := indexManifestsLoop_mismatch_error imageIndex mediaTypes
    indexManifest.Manifests [] [] d img m l hd hsel hget hl hne
  have hf : FetchFromIndexOrImage imageIndex (some indexManifest) image mediaTypes = .error e := he
  refine ⟨⟨e, hf⟩, fun hres => ?_⟩
  obtain ⟨d2, hd2, img2, m2, hget2, l2, hl2, hne2, hee⟩ :=
    indexManifestsLoop_mismatch_kind imageIndex mediaTypes indexManifest.Manifests [] [] hres e he
  exact ⟨d2, hd2, img2, m2, hget2, l2, hl2, hne2, by rw [hf, hee]⟩

/-- C7 witness: the index whose manifest declares the content media type and
whose sole layer carries the attestation media type, fetched with the empty
allow-list, fails with the media-type-mismatch error. -/
theorem fetch_mismatch_in_selected_manifest_fails_witness :
    mismatchDescriptor ∈ mismatchIndexManifest.Manifests ∧
    selected [] mismatchDescriptor.ArtifactType = true ∧
    getImage mismatchIndex mismatchDescriptor.Digest = .ok (mismatchImage, mismatchManifest) ∧
    mismatchLayerDescriptor ∈ mismatchManifest.Layers ∧
    mismatchLayerDescriptor.MediaType ≠ mismatchDescriptor.ArtifactType ∧
    (∃ e, FetchFromIndexOrImage mismatchIndex (some mismatchIndexManifest) mismatchImage []
      = .error e) ∧
    FetchFromIndexOrImage mismatchIndex (some mismatchIndexManifest) mismatchImage [] =
      .error (.mediaTypeMismatch OCIManifestSchema1 AttestMediaType) :=
  ⟨by decide, by decide, rfl, by decide, by decide,
    (fetch_mismatch_in_selected_manifest_fails mismatchIndex mismatchIndexManifest mismatchImage
      [] mismatchDescriptor mismatchImage mismatchManifest mismatchLayerDescriptor
      (by decide) (by decide) rfl (by decide) (by decide)).1,
    by decide⟩

theorem goMapSet_keys {κ ν : Type} [DecidableEq κ] (m : List (κ × ν)) (k : κ) (v : ν) (h : κ) :
    h ∈ (goMapSet m k v).map Prod.fst ↔ h = k ∨ h ∈ m.map Prod.fst := by
  induction m with
  | nil => simp [goMapSet]
  | cons p rest ih =>
    obtain ⟨k1, v1⟩ := p
    unfold goMapSet
    by_cases hk : k1 = k
    · subst hk
      simp
    · simp only [hk, if_false, List.map_cons, List.mem_cons, ih]
      tauto

theorem goMapGet_goMapSet {κ ν : Type} [DecidableEq κ] (m : List (κ × ν)) (k : κ) (v : ν)
    (h : κ) :
    goMapGet (goMapSet m k v) h = if k = h then some v else goMapGet m h := by
  induction m with
  | nil => simp [goMapSet, goMapGet]
  | cons p rest ih =>
    obtain ⟨k1, v1⟩ := p
    unfold goMapSet
    by_cases hk : k1 = k
    · subst hk
      by_cases hh : k1 = h
      · simp [goMapGet, hh]
      · simp [goMapGet, hh]
    · by_cases hh : k1 = h
      · subst hh
        have hk2 : ¬ k = k1 := fun e => hk e.symm
        simp [goMapGet, hk, hk2]
      · simp [goMapGet, hk, hh, ih]

theorem indexLayersLoop_all_agree (image : Image) (d : Descriptor) (m : Manifest)
    (mk : Descriptor → ArtefactInfo) (layers : List Descriptor) (acc : List ArtefactInfo)
    (h : ∀ l ∈ layers, l.MediaType = d.ArtifactType ∧
      newArtifcatInfoFromLayerDescriptor image l m.Annotations = .ok (mk l)) :
    indexLayersLoop image d m layers acc = .ok (acc ++ layers.map mk) := by
  induction layers generalizing acc with
  | nil => simp [indexLayersLoop]
  | cons x xs ih =>
    obtain ⟨hx, hinfo⟩ := h x (List.mem_cons_self _ _)
    unfold indexLayersLoop
    simp only [hx, bne_self_eq_false, Bool.false_eq_true, if_false, hinfo]
    rw [ih _ (fun l hl => h l (List.mem_cons_of_mem _ hl))]
    simp

/-- The manifest map after the selected descriptors of `ds` were entered. -/
theorem selectedManifests_keys (mediaTypes : List MediaType) (man : Hash → Manifest)
    (ds : List Descriptor) (mans : List (Hash × Manifest)) (h : Hash) :
    h ∈ ((ds.filter (fun d => selected mediaTypes d.ArtifactType)).foldl
        (fun m d => goMapSet m d.Digest (man d.Digest)) mans).map Prod.fst ↔
      (∃ d ∈ ds, selected mediaTypes d.ArtifactType = true ∧ d.Digest = h) ∨
        h ∈ mans.map Prod.fst := by
  induction ds generalizing mans with
  | nil => simp
  | cons x xs ih =>
    cases hs : selected mediaTypes x.ArtifactType
    · simp only [List.filter_cons, hs, Bool.false_eq_true, if_false, ih, List.mem_cons,
        exists_eq_or_imp, false_and, false_or]
    · simp only [List.filter_cons, hs, if_true, List.foldl_cons, ih, goMapSet_keys,
        List.mem_cons, exists_eq_or_imp, true_and]
      constructor
      · rintro (h1 | h1 | h1)
        · exact Or.inl (Or.inr h1)
        · exact Or.inl (Or.inl h1.symm)
        · exact Or.inr h1
      · rintro ((h1 | h1) | h1)
        · exact Or.inr (Or.inl h1.symm)
        · exact Or.inl h1
        · exact Or.inr (Or.inr h1)

theorem selectedManifests_values (mediaTypes : List MediaType) (man : Hash → Manifest)
    (ds : List Descriptor) (mans : List (Hash × Manifest))
    (hm : ∀ h m, goMapGet mans h = some m → m = man h) (h : Hash) (m : Manifest)
    (hget : goMapGet ((ds.filter (fun d => selected mediaTypes d.ArtifactType)).foldl
        (fun m d => goMapSet m d.Digest (man d.Digest)) mans) h = some m) :
    m = man h := by
  induction ds generalizing mans with
  | nil => exact hm h m hget
  | cons x xs ih =>
    cases hs : selected mediaTypes x.ArtifactType
    · simp only [List.filter_cons, hs, Bool.false_eq_true, if_false] at hget
      exact ih mans hm hget
    · simp only [List.filter_cons, hs, if_true, List.foldl_cons] at hget
      refine ih _ ?_ hget
      intro h2 m2 hg
      rw [goMapGet_goMapSet] at hg
      by_cases hk : x.Digest = h2
      · simp only [hk, if_true, Option.some.injEq] at hg
        exact hg.symm
      · simp only [hk, if_false] at hg
        exact hm h2 m2 hg

theorem indexManifestsLoop_all_agree (imageIndex : ImageIndex) (mediaTypes : List MediaType)
    (img : Hash → Image) (man : Hash → Manifest) (blob : Hash → Hash → Blob)
    (ds : List Descriptor) (arts : List ArtefactInfo) (mans : List (Hash × Manifest))
    (himg : ∀ d ∈ ds, selected mediaTypes d.ArtifactType = true →
      imageIndex.Image d.Digest = .ok (img d.Digest) ∧
        (img d.Digest).Manifest = .ok (man d.Digest))
    (hlay : ∀ d ∈ ds, selected mediaTypes d.ArtifactType = true →
      ∀ l ∈ (man d.Digest).Layers, l.MediaType = d.ArtifactType ∧
        ∃ layer, (img d.Digest).LayerByDigest l.Digest = .ok layer ∧
          layer.Compressed = .ok (blob d.Digest l.Digest)) :
    indexManifestsLoop imageIndex mediaTypes ds arts mans =
      .ok (arts ++ selectedLayers mediaTypes man blob ds,
        (ds.filter (fun d => selected mediaTypes d.ArtifactType)).foldl
          (fun m d => goMapSet m d.Digest (man d.Digest)) mans) := by
  induction ds generalizing arts mans with
  | nil => simp [indexManifestsLoop, selectedLayers]
  | cons x xs ih =>
    have himg2 := fun d hd => himg d (List.mem_cons_of_mem x hd)
    have hlay2 := fun d hd => hlay d (List.mem_cons_of_mem x hd)
    unfold indexManifestsLoop
    cases hs : selected mediaTypes x.ArtifactType
    · simp only [skip_eq_not_selected, hs, Bool.not_false, if_true, ih _ _ himg2 hlay2]
      simp [selectedLayers, hs]
    · obtain ⟨hi, hman⟩ := himg x (List.mem_cons_self _ _) hs
      have hget : getImage imageIndex x.Digest = .ok (img x.Digest, man x.Digest) := by
        simp [getImage, hi, hman, wrapError, bind, Except.bind, pure, Except.pure]
      have hloop := indexLayersLoop_all_agree (img x.Digest) x (man x.Digest)
        (fun l =>
          { ReadCloser := blob x.Digest l.Digest,
            MediaType := l.MediaType,
            Annotations := (man x.Digest).Annotations,
            Digest := l.Digest.String })
        (man x.Digest).Layers arts
        (by
          intro l hl
          obtain ⟨hmt, layer, hlayer, hblob⟩ := hlay x (List.mem_cons_self _ _) hs l hl
          refine ⟨hmt, ?_⟩
          simp [newArtifcatInfoFromLayerDescriptor, hlayer, hblob, wrapError, bind, Except.bind,
            pure, Except.pure])
      simp only [skip_eq_not_selected, hs, Bool.not_true, Bool.false_eq_true, if_false, hget,
        hloop, ih _ _ himg2 hlay2]
      simp [selectedLayers, hs]

/-- C8: when every manifest the allow-list selects resolves (image `img`,
manifest `man`), and every layer of such a manifest has the manifest's
declared artifact type and resolves to a stream (`blob`), the fetch returns, in
manifest order and then layer order, exactly the layers of the selected
manifests (all manifests when the allow-list is empty), each with its own
manifest's annotations, its media type and its digest; and the keys of the
returned manifest map are exactly the digests of the selected manifests, each
mapped to the manifest resolved for it. -/
theorem fetch_index_returns_selected_layers (imageIndex : ImageIndex)
    (indexManifest : IndexManifest) (image : Image) (mediaTypes : List MediaType)
    (img : Hash → Image) (man : Hash → Manifest) (blob : Hash → Hash → Blob)
    (himg : ∀ d ∈ indexManifest.Manifests, selected mediaTypes d.ArtifactType = true →
      imageIndex.Image d.Digest = .ok (img d.Digest) ∧
        (img d.Digest).Manifest = .ok (man d.Digest))
    (hlay : ∀ d ∈ indexManifest.Manifests, selected mediaTypes d.ArtifactType = true →
      ∀ l ∈ (man d.Digest).Layers, l.MediaType = d.ArtifactType ∧
        ∃ layer, (img d.Digest).LayerByDigest l.Digest = .ok layer ∧
          layer.Compressed = .ok (blob d.Digest l.Digest)) :
    ∃ manifests,
      FetchFromIndexOrImage imageIndex (some indexManifest) image mediaTypes =
        .ok (selectedLayers mediaTypes man blob indexManifest.Manifests, manifests) ∧
      (∀ h, h ∈ manifests.map Prod.fst ↔
        ∃ d ∈ indexManifest.Manifests, selected mediaTypes d.ArtifactType = true ∧ d.Digest = h) ∧
      (∀ h m, goMapGet manifests h = some m → m = man h) := by
  refine ⟨(indexManifest.Manifests.filter (fun d => selected mediaTypes d.ArtifactType)).foldl
    (fun m d => goMapSet m d.Digest (man d.Digest)) [], ?_, ?_, ?_⟩
  · have h := indexManifestsLoop_all_agree imageIndex mediaTypes img man blob
      indexManifest.Manifests [] [] himg hlay
    rw [List.nil_append] at h
    exact h
  · intro h
    rw [selectedManifests_keys]
    simp
  · intro h m hget
    exact selectedManifests_values mediaTypes man indexManifest.Manifests [] (by
      intro h2 m2 hg
      simp [goMapGet] at hg) h m hget

/-- C8 witness: the two-manifest index fetched with the allow-list
`[ContentMediaType]` returns the content layer alone, with the content
manifest's annotations, and a manifest map with the content manifest's digest
as its only key. -/
theorem fetch_index_returns_selected_layers_witness :
    FetchFromIndexOrImage packageIndex (some packageIndexManifest) mismatchImage
        [ContentMediaType] =
      .ok ([{ ReadCloser := [31, 139, 8], MediaType := ContentMediaType,
              Annotations := contentManifest.Annotations,
              Digest := "sha256:1c" }],
           [(sha "c0", contentManifest)]) ∧
    ∃ manifests,
      FetchFromIndexOrImage packageIndex (some packageIndexManifest) mismatchImage
          [ContentMediaType] =
        .ok (selectedLayers [ContentMediaType] packageManifestOf packageBlobOf
          packageIndexManifest.Manifests, manifests) ∧
      (∀ h, h ∈ manifests.map Prod.fst ↔
        ∃ d ∈ packageIndexManifest.Manifests,
          selected [ContentMediaType] d.ArtifactType = true ∧ d.Digest = h) ∧
      (∀ h m, goMapGet manifests h = some m → m = packageManifestOf h) :=
  ⟨by decide,
    fetch_index_returns_selected_layers packageIndex packageIndexManifest mismatchImage
      [ContentMediaType] packageImageOf packageManifestOf packageBlobOf
      (fun _ _ _ => ⟨rfl, rfl⟩)
      (fun d hd hs l hl => by
        refine ⟨?_, _, rfl, rfl⟩
        simp only [packageIndexManifest, List.mem_cons, List.mem_singleton, List.not_mem_nil,
          or_false] at hd
        rcases hd with hd | hd
        · subst hd
          have hl2 : l = contentLayerDescriptor := by
            simpa [packageManifestOf, contentManifest] using hl
          subst hl2
          rfl
        · subst hd
          exact absurd hs (by decide))⟩


/-! ## Theorems: push orchestration -/

theorem nameTags_ok_inv (env : PushEnv) (destinationRef : String) (sum : List Nat)
    (t : name.Tag × name.Tag) (h : nameTags env destinationRef sum = .ok t) :
    ∃ repo, env.newRepository destinationRef = .ok repo := by
  unfold nameTags at h
  cases hr : env.newRepository destinationRef with
  | error e => simp [hr, wrapError, orReturn, bind, Except.bind] at h
  | ok repo => exact ⟨repo, rfl⟩

theorem assembleIndex_ok_inv (env : PushEnv) (archive : Blob) (attestLayer : Option BuiltLayer)
    (timestamp : Option Time) (sourceAttestations : List Statement) (index : IndexData)
    (digest : Hash)
    (h : assembleIndex env archive attestLayer timestamp sourceAttestations =
      .ok (index, digest)) :
    env.indexDigest index = .ok digest := by
  unfold assembleIndex at h
  cases hm : assembleManifests env archive attestLayer timestamp sourceAttestations with
  | error e => simp [hm, bind, Except.bind] at h
  | ok ix =>
    cases hd : env.indexDigest ix with
    | error e => simp [hm, hd, wrapError, orReturn, bind, Except.bind] at h
    | ok dg =>
      simp only [hm, hd, wrapError, orReturn, bind, Except.bind, pure, Except.pure,
        Except.ok.injEq, Prod.mk.injEq] at h
      obtain ⟨h1, h2⟩ := h
      subst h1 h2
      exact hd

theorem composeIndex_ok_inv (env : PushEnv) (destinationRef sourceDir : String)
    (timestamp : Option Time) (sourceAttestations : List Statement) (c : Composed)
    (h : composeIndex env destinationRef sourceDir timestamp sourceAttestations = .ok c) :
    ∃ archive sum attestLayer, env.buildArtefact sourceDir = .ok (archive, sum) ∧
      nameTags env destinationRef sum = .ok (c.tag, c.shortTag) ∧
      SemVerTagsFromAttestations c.tag sourceAttestations = .ok c.semVerTags ∧
      BuildAttestations env sourceAttestations = .ok attestLayer ∧
      assembleIndex env archive attestLayer timestamp sourceAttestations =
        .ok (c.index, c.digest) := by
  unfold composeIndex at h
  cases h1 : env.mkdirTemp with
  | some e => simp [h1, orReturnErr, bind, Except.bind] at h
  | none =>
    cases h2 : env.openFile with
    | some e => simp [h1, h2, orReturnErr, bind, Except.bind] at h
    | none =>
      cases h3 : env.buildArtefact sourceDir with
      | error e => simp [h1, h2, h3, orReturnErr, orReturn, bind, Except.bind] at h
      | ok p =>
        obtain ⟨archive, sum⟩ := p
        cases h4 : BuildAttestations env sourceAttestations with
        | error e =>
          simp [h1, h2, h3, h4, orReturnErr, orReturn, wrapError, bind, Except.bind] at h
        | ok attestLayer =>
          cases h5 : nameTags env destinationRef sum with
          | error e =>
            simp [h1, h2, h3, h4, h5, orReturnErr, orReturn, wrapError, bind, Except.bind] at h
          | ok tags =>
            obtain ⟨tag, shortTag⟩ := tags
            cases h6 : SemVerTagsFromAttestations tag sourceAttestations with
            | error e =>
              simp [h1, h2, h3, h4, h5, h6, orReturnErr, orReturn, orPanic, wrapError, bind,
                Except.bind] at h
            | ok semVerTags =>
              cases h7 : assembleIndex env archive attestLayer timestamp sourceAttestations with
              | error e =>
                simp [h1, h2, h3, h4, h5, h6, h7, orReturnErr, orReturn, orPanic, wrapError,
                  bind, Except.bind] at h
              | ok r =>
                obtain ⟨index, digest⟩ := r
                simp only [h1, h2, h3, h4, h5, h6, h7, orReturnErr, orReturn, orPanic, wrapError,
                  bind, Except.bind, pure, Except.pure, Except.ok.injEq] at h
                subst h
                exact ⟨archive, sum, attestLayer, rfl, h5, h6, rfl, h7⟩

theorem hexEncodeToString_length (src : List Nat) :
    (hexEncodeToString src).data.length = 2 * src.length := by
  unfold hexEncodeToString
  induction src with
  | nil => rfl
  | cons v vs ih =>
    simp only [List.flatMap_cons, List.length_append, List.length_cons, List.length_nil] at ih ⊢
    omega

theorem hextable_getD_mem (n : Nat) (h : n < 16) : hextable.getD n '0' ∈ hextable := by
  have : ∀ k, k < 16 → hextable.getD k '0' ∈ hextable := by decide
  exact this n h

theorem hexEncodeToString_lowercase (src : List Nat) :
    ∀ ch ∈ (hexEncodeToString src).data, ch ∈ hextable := by
  intro ch hch
  unfold hexEncodeToString at hch
  simp only [List.mem_flatMap, List.mem_cons, List.mem_singleton, List.not_mem_nil,
    or_false] at hch
  obtain ⟨v, _, hv | hv⟩ := hch
  · subst hv
    exact hextable_getD_mem _ (Nat.div_lt_of_lt_mul (by omega))
  · subst hv
    exact hextable_getD_mem _ (Nat.mod_lt _ (by decide))

theorem nameTags_of_long_sum (env : PushEnv) (destinationRef : String) (sum : List Nat)
    (repo : name.Repository) (hrepo : env.newRepository destinationRef = .ok repo)
    (hsum : 4 ≤ sum.length) :
    nameTags env destinationRef sum =
      .ok (repo.Tag (env.ConfigImageTagPrefix ++ hexEncodeToString sum),
        repo.Tag (env.ConfigImageTagPrefix ++ ⟨(hexEncodeToString sum).data.take 7⟩)) := by
  have hlen : 7 ≤ (hexEncodeToString sum).data.length := by
    rw [hexEncodeToString_length]; omega
  have hlen2 : 7 ≤ (hexEncodeToString sum).length := hlen
  simp [nameTags, hrepo, wrapError, orReturn, orPanic, goSliceTo, hlen2, bind, Except.bind, pure,
    Except.pure, name.Tag.Context, name.Repository.Tag]

theorem shortTag_proper_prefix (repo : name.Repository) (pre : String) (sum : List Nat)
    (hsum : 4 ≤ sum.length) :
    strings.HasPrefix (repo.Tag (pre ++ hexEncodeToString sum)).String
        (repo.Tag (pre ++ ⟨(hexEncodeToString sum).data.take 7⟩)).String = true ∧
      (repo.Tag (pre ++ ⟨(hexEncodeToString sum).data.take 7⟩)).String ≠
        (repo.Tag (pre ++ hexEncodeToString sum)).String := by
  have hlen := hexEncodeToString_length sum
  constructor
  · simp only [strings.HasPrefix, name.Tag.String, name.Repository.Tag, String.data_append,
      List.isPrefixOf_iff_prefix]
    refine List.prefix_append_right_inj _ |>.2 ?_
    refine List.prefix_append_right_inj _ |>.2 ?_
    exact List.take_prefix _ _
  · intro h
    have h2 := congrArg (fun s => s.data.length) h
    simp only [name.Tag.String, name.Repository.Tag, String.data_append, List.length_append,
      List.length_take] at h2
    omega

/-- The bound of 4 bytes in the naming of the tags is sharp: a sum of one byte
has a hex digest of two characters, the slice `hash[:7]` is out of range, and
the run ends in a panic before any registry call. -/
theorem push_short_hash_panics :
    shortHashEnv.buildArtefact "dir" = .ok ([31, 139, 8], [171]) ∧
    nameTags shortHashEnv "ttl.sh/x/podinfo" [171] =
      .error (.panic (.sliceBoundsOutOfRange 7 2)) ∧
    (PushArtefact shortHashEnv "ttl.sh/x/podinfo" "dir" none []).result =
      .error (.sliceBoundsOutOfRange 7 2) := by
  decide

/-- C6: for every destination that parses as a repository and every content
hash `sum` (the sum of the client's hash accumulator, a digest, hence of at
least 4 bytes), the primary tag is the config tag prefix followed by the full
lowercase hex encoding of `sum` (two digits per byte) and the short tag is the
same prefix followed by the first 7 hex characters, both in the destination
repository; the short tag string is a proper prefix of the primary tag string;
and in every run of the stages before the first registry call that succeeds,
whatever its timestamp and attestations, these are the tags in scope. -/
theorem push_tags_from_hash (env : PushEnv) (destinationRef : String) (sum : List Nat)
    (repo : name.Repository) (hrepo : env.newRepository destinationRef = .ok repo)
    (hsum : 4 ≤ sum.length) :
    nameTags env destinationRef sum =
      .ok (repo.Tag (env.ConfigImageTagPrefix ++ hexEncodeToString sum),
        repo.Tag (env.ConfigImageTagPrefix ++ ⟨(hexEncodeToString sum).data.take 7⟩)) ∧
    (hexEncodeToString sum).data.length = 2 * sum.length ∧
    (∀ ch ∈ (hexEncodeToString sum).data, ch ∈ hextable) ∧
    strings.HasPrefix (repo.Tag (env.ConfigImageTagPrefix ++ hexEncodeToString sum)).String
      (repo.Tag (env.ConfigImageTagPrefix ++ ⟨(hexEncodeToString sum).data.take 7⟩)).String
        = true ∧
    (repo.Tag (env.ConfigImageTagPrefix ++ ⟨(hexEncodeToString sum).data.take 7⟩)).String ≠
      (repo.Tag (env.ConfigImageTagPrefix ++ hexEncodeToString sum)).String ∧
    ∀ (sourceDir : String) (timestamp : Option Time) (sourceAttestations : List Statement)
      (archive : Blob) (c : Composed),
      env.buildArtefact sourceDir = .ok (archive, sum) →
      composeIndex env destinationRef sourceDir timestamp sourceAttestations = .ok c →
        c.tag = repo.Tag (env.ConfigImageTagPrefix ++ hexEncodeToString sum) ∧
        c.shortTag =
          repo.Tag (env.ConfigImageTagPrefix ++ ⟨(hexEncodeToString sum).data.take 7⟩) := by
  have hn := nameTags_of_long_sum env destinationRef sum repo hrepo hsum
  obtain ⟨hp, hne⟩ := shortTag_proper_prefix repo env.ConfigImageTagPrefix sum hsum
  refine ⟨hn, hexEncodeToString_length sum, hexEncodeToString_lowercase sum, hp, hne, ?_⟩
  intro sourceDir timestamp sourceAttestations archive c hb hc
  obtain ⟨archive2, sum2, _, hb2, hn2, _⟩ :=
    composeIndex_ok_inv env destinationRef sourceDir timestamp sourceAttestations c hc
  rw [hb] at hb2
  simp only [Except.ok.injEq, Prod.mk.injEq] at hb2
  obtain ⟨_, hs⟩ := hb2
  subst hs
  rw [hn] at hn2
  simp only [Except.ok.injEq, Prod.mk.injEq] at hn2
  exact ⟨hn2.1.symm, hn2.2.symm⟩

/-- C6 witness: destination `ttl.sh/x/podinfo`, hash `de ad be ef 01`, prefix
`config.`: the primary tag is `config.deadbeef01`, the short tag
`config.deadbee`, with and without attestations and timestamp. -/
theorem push_tags_from_hash_witness :
    nameTags okEnv "ttl.sh/x/podinfo" [222, 173, 190, 239, 1] =
      .ok ((name.Repository.mk "ttl.sh/x/podinfo").Tag "config.deadbeef01",
        (name.Repository.mk "ttl.sh/x/podinfo").Tag "config.deadbee") ∧
    (∃ c, composeIndex okEnv "ttl.sh/x/podinfo" "dir" none [podinfoStatement] = .ok c ∧
      c.tag.String = "ttl.sh/x/podinfo:config.deadbeef01" ∧
      c.shortTag.String = "ttl.sh/x/podinfo:config.deadbee") ∧
    (∃ c, composeIndex okEnv "ttl.sh/x/podinfo" "dir" (some { RFC3339 := "1970-01-01T00:00:00Z" })
        [] = .ok c ∧
      c.tag.String = "ttl.sh/x/podinfo:config.deadbeef01" ∧
      c.shortTag.String = "ttl.sh/x/podinfo:config.deadbee") := by
  have h := push_tags_from_hash okEnv "ttl.sh/x/podinfo" [222, 173, 190, 239, 1]
    { Name := "ttl.sh/x/podinfo" } rfl (by decide)
  refine ⟨?_, ?_, ?_⟩
  · rw [h.1]; decide
  · refine ⟨_, rfl, ?_, ?_⟩ <;> decide
  · refine ⟨_, rfl, ?_, ?_⟩ <;> decide

theorem aliasLoop_first_failure (env : PushEnv) (index : IndexData) (digest : Hash) (n : Nat)
    (aliases : List name.Tag) (i k : Nat) (refs : PackageRefs) (trace : List RegistryCall)
    (a : name.Tag) (e : Error)
    (hk : aliases.get? k = some a)
    (hok : ∀ j b, j < k → aliases.get? j = some b → env.remoteTag (i + j) b index = none)
    (hfail : env.remoteTag (i + k) a index = some e) :
    aliasLoop env index digest n i aliases refs trace =
      { trace := trace ++ (aliases.take k).map (fun b => RegistryCall.tag b true) ++
          [RegistryCall.tag a false],
        result := .ok (none, some (.wrapped "adding alias tagging failed" e)) } := by
  induction aliases generalizing i k refs trace with
  | nil => simp at hk
  | cons x xs ih =>
    cases k with
    | zero =>
      simp only [List.get?_cons_zero, Option.some.injEq] at hk
      subst hk
      simp only [Nat.add_zero] at hfail
      simp [aliasLoop, hfail]
    | succ k =>
      have h0 : env.remoteTag i x index = none := by
        have := hok 0 x (Nat.succ_pos k) rfl
        simpa using this
      simp only [List.get?_cons_succ] at hk
      unfold aliasLoop
      simp only [h0]
      rw [ih (i + 1) k _ _ hk
        (fun j b hj hb => by
          have := hok (j + 1) b (Nat.succ_lt_succ hj) (by simpa using hb)
          simpa [Nat.add_assoc, Nat.add_comm 1 j] using this)
        (by simpa [Nat.add_assoc, Nat.add_comm 1 k] using hfail)]
      simp

theorem aliasLoop_trace (env : PushEnv) (index : IndexData) (digest : Hash) (n : Nat)
    (aliases : List name.Tag) (i : Nat) (refs : PackageRefs) (trace : List RegistryCall) :
    ∃ calls, (aliasLoop env index digest n i aliases refs trace).trace = trace ++ calls ∧
      ∀ x ∈ calls, ∃ a ok, x = RegistryCall.tag a ok := by
  induction aliases generalizing i refs trace with
  | nil => exact ⟨[], by simp [aliasLoop], by simp⟩
  | cons x xs ih =>
    unfold aliasLoop
    cases h : env.remoteTag i x index with
    | some e =>
      exact ⟨[.tag x false], rfl, by simp⟩
    | none =>
      simp only
      obtain ⟨calls, hc, hall⟩ := ih (i + 1)
        (if i < n then
          { refs with SemVer := refs.SemVer.set i (x.String ++ "@" ++ digest.String) }
        else refs) (trace ++ [.tag x true])
      refine ⟨.tag x true :: calls, ?_, ?_⟩
      · rw [hc]; simp
      · intro y hy
        rcases List.mem_cons.1 hy with hy | hy
        · exact ⟨x, true, hy⟩
        · exact hall y hy

theorem PushArtefact_of_composed (env : PushEnv) (destinationRef sourceDir : String)
    (timestamp : Option Time) (sourceAttestations : List Statement) (c : Composed)
    (hc : composeIndex env destinationRef sourceDir timestamp sourceAttestations = .ok c)
    (hw : env.writeIndex c.tag c.index = none) :
    PushArtefact env destinationRef sourceDir timestamp sourceAttestations =
      aliasLoop env c.index c.digest c.semVerTags.length 0 (c.semVerTags ++ [c.shortTag])
        { Digest := c.digest.String, Primary := c.tag.String, Short := c.shortTag.String,
          SemVer := List.replicate c.semVerTags.length "" }
        [.writeIndex c.tag true] := by
  simp [PushArtefact, hc, hw]

theorem PushArtefact_trace_of_failure (env : PushEnv) (destinationRef sourceDir : String)
    (timestamp : Option Time) (sourceAttestations : List Statement) (f : Failure)
    (hc : composeIndex env destinationRef sourceDir timestamp sourceAttestations = .error f) :
    (PushArtefact env destinationRef sourceDir timestamp sourceAttestations).trace = [] := by
  unfold PushArtefact
  rw [hc]
  cases f <;> rfl

theorem PushArtefact_trace_of_not_composed (env : PushEnv) (destinationRef sourceDir : String)
    (timestamp : Option Time) (sourceAttestations : List Statement)
    (hc : ∀ c, composeIndex env destinationRef sourceDir timestamp sourceAttestations ≠ .ok c) :
    (PushArtefact env destinationRef sourceDir timestamp sourceAttestations).trace = [] := by
  cases h : composeIndex env destinationRef sourceDir timestamp sourceAttestations with
  | error f => exact PushArtefact_trace_of_failure _ _ _ _ _ f h
  | ok c => exact absurd h (hc c)

/-- C9 (as stated, refuted): the index push succeeds, the first alias push is
refused, and `PushArtefact` returns the error with a nil `PackageRefs`
(`return nil, fmt.Errorf("adding alias tagging failed: %w", err)`), not the
refs attempted. -/
theorem push_alias_failure_returns_nil_refs :
    (PushArtefact aliasFailEnv "ttl.sh/x/podinfo" "dir" none [podinfoStatement]).trace =
      [.writeIndex ((name.Repository.mk "ttl.sh/x/podinfo").Tag "config.deadbeef01") true,
       .tag ((name.Repository.mk "ttl.sh/x/podinfo").Tag "v6.6.3") false] ∧
    (PushArtefact aliasFailEnv "ttl.sh/x/podinfo" "dir" none [podinfoStatement]).result =
      .ok (none, some (.wrapped "adding alias tagging failed" (.external "denied"))) ∧
    ¬ ∃ refs err,
      (PushArtefact aliasFailEnv "ttl.sh/x/podinfo" "dir" none [podinfoStatement]).result =
        .ok (some refs, some err) := by
  refine ⟨by decide, by decide, ?_⟩
  rintro ⟨refs, err, h⟩
  have h2 : (PushArtefact aliasFailEnv "ttl.sh/x/podinfo" "dir" none [podinfoStatement]).result =
      .ok (none, some (.wrapped "adding alias tagging failed" (.external "denied"))) := by
    decide
  rw [h2] at h
  simp at h

/-- C9 (amended): if the stages before the registry succeed, the index push
succeeds, the alias pushes before position `k` of `append(semVerTags, shortTag)`
succeed and the push of the alias at position `k` fails with `e`, then
`PushArtefact` returns a nil `PackageRefs` together with `e` wrapped as
"adding alias tagging failed"; the registry saw the index write, the aliases
before `k`, and the failed alias, and no alias after it. -/
theorem push_alias_failure_returns_error_only (env : PushEnv)
    (destinationRef sourceDir : String) (timestamp : Option Time)
    (sourceAttestations : List Statement) (c : Composed) (k : Nat) (a : name.Tag) (e : Error)
    (hc : composeIndex env destinationRef sourceDir timestamp sourceAttestations = .ok c)
    (hw : env.writeIndex c.tag c.index = none)
    (hk : (c.semVerTags ++ [c.shortTag]).get? k = some a)
    (hok : ∀ j b, j < k → (c.semVerTags ++ [c.shortTag]).get? j = some b →
      env.remoteTag j b c.index = none)
    (hfail : env.remoteTag k a c.index = some e) :
    PushArtefact env destinationRef sourceDir timestamp sourceAttestations =
      { trace := RegistryCall.writeIndex c.tag true ::
          (((c.semVerTags ++ [c.shortTag]).take k).map (fun b => RegistryCall.tag b true) ++
            [RegistryCall.tag a false]),
        result := .ok (none, some (.wrapped "adding alias tagging failed" e)) } := by
  rw [PushArtefact_of_composed env destinationRef sourceDir timestamp sourceAttestations c hc hw]
  rw [aliasLoop_first_failure env c.index c.digest c.semVerTags.length
    (c.semVerTags ++ [c.shortTag]) 0 k _ _ a e hk
    (fun j b hj hb => by simpa using hok j b hj hb) (by simpa using hfail)]
  simp

/-- C9 witness: in `aliasFailEnv` the first alias, the semver tag `v6.6.3`, is
refused. -/
theorem push_alias_failure_returns_error_only_witness :
    PushArtefact aliasFailEnv "ttl.sh/x/podinfo" "dir" none [podinfoStatement] =
      { trace :=
          [.writeIndex ((name.Repository.mk "ttl.sh/x/podinfo").Tag "config.deadbeef01") true,
           .tag ((name.Repository.mk "ttl.sh/x/podinfo").Tag "v6.6.3") false],
        result := .ok (none, some (.wrapped "adding alias tagging failed"
          (.external "denied"))) } := by
  have h := push_alias_failure_returns_error_only aliasFailEnv "ttl.sh/x/podinfo" "dir" none
    [podinfoStatement] _ 0 ((name.Repository.mk "ttl.sh/x/podinfo").Tag "v6.6.3")
    (.external "denied") rfl rfl (by decide) (fun j b hj _ => absurd hj (Nat.not_lt_zero j)) rfl
  rw [h]
  decide

/-- C10: in every run of `PushArtefact`, a `remote.Tag` call is preceded by
the index write under the primary tag, which was the first registry call and
succeeded, and every call after it is an alias tag call; if a stage before the
registry fails (archiving, attestation encoding, destination parsing, digest
computation, or any other) there is no registry call at all; and if the index
write fails it is the only registry call. -/
theorem push_alias_only_after_index_write (env : PushEnv) (destinationRef sourceDir : String)
    (timestamp : Option Time) (sourceAttestations : List Statement) :
    (∀ pre tagAlias ok post,
      (PushArtefact env destinationRef sourceDir timestamp sourceAttestations).trace =
        pre ++ RegistryCall.tag tagAlias ok :: post →
      ∃ c rest, composeIndex env destinationRef sourceDir timestamp sourceAttestations = .ok c ∧
        env.writeIndex c.tag c.index = none ∧
        pre = RegistryCall.writeIndex c.tag true :: rest ∧
        ∀ x ∈ rest ++ RegistryCall.tag tagAlias ok :: post, ∃ b r, x = RegistryCall.tag b r) ∧
    (∀ f, composeIndex env destinationRef sourceDir timestamp sourceAttestations = .error f →
      (PushArtefact env destinationRef sourceDir timestamp sourceAttestations).trace = []) ∧
    (∀ e, env.buildArtefact sourceDir = .error e →
      (PushArtefact env destinationRef sourceDir timestamp sourceAttestations).trace = []) ∧
    (∀ e, BuildAttestations env sourceAttestations = .error e →
      (PushArtefact env destinationRef sourceDir timestamp sourceAttestations).trace = []) ∧
    (∀ e, env.newRepository destinationRef = .error e →
      (PushArtefact env destinationRef sourceDir timestamp sourceAttestations).trace = []) ∧
    ((∀ index, ∃ e, env.indexDigest index = .error e) →
      (PushArtefact env destinationRef sourceDir timestamp sourceAttestations).trace = []) ∧
    (∀ c e, composeIndex env destinationRef sourceDir timestamp sourceAttestations = .ok c →
      env.writeIndex c.tag c.index = some e →
      (PushArtefact env destinationRef sourceDir timestamp sourceAttestations).trace =
        [RegistryCall.writeIndex c.tag false]) := by
  refine ⟨?_, ?_, ?_, ?_, ?_, ?_, ?_⟩
  · intro pre tagAlias ok post htrace
    cases hc : composeIndex env destinationRef sourceDir timestamp sourceAttestations with
    | error f =>
      rw [PushArtefact_trace_of_failure _ _ _ _ _ f hc] at htrace
      simp at htrace
    | ok c =>
      cases hw : env.writeIndex c.tag c.index with
      | some e =>
        have : (PushArtefact env destinationRef sourceDir timestamp sourceAttestations).trace =
            [RegistryCall.writeIndex c.tag false] := by
          simp [PushArtefact, hc, hw]
        rw [this] at htrace
        cases pre with
        | nil => simp at htrace
        | cons p ps =>
          simp only [List.cons_append, List.cons.injEq] at htrace
          have h2 := htrace.2
          simp at h2
      | none =>
        rw [PushArtefact_of_composed _ _ _ _ _ c hc hw] at htrace
        obtain ⟨calls, hcalls, hall⟩ := aliasLoop_trace env c.index c.digest c.semVerTags.length
          (c.semVerTags ++ [c.shortTag]) 0
          { Digest := c.digest.String, Primary := c.tag.String, Short := c.shortTag.String,
            SemVer := List.replicate c.semVerTags.length "" }
          [.writeIndex c.tag true]
        rw [hcalls] at htrace
        cases pre with
        | nil => simp at htrace
        | cons p ps =>
          simp only [List.cons_append, List.nil_append, List.cons.injEq] at htrace
          obtain ⟨hp, hrest⟩ := htrace
          refine ⟨c, ps, rfl, hw, by rw [hp], ?_⟩
          rw [← hrest]
          exact hall
  · intro f hf
    exact PushArtefact_trace_of_failure _ _ _ _ _ f hf
  · intro e he
    apply PushArtefact_trace_of_not_composed
    intro c hc
    obtain ⟨_, _, _, hb, _⟩ := composeIndex_ok_inv _ _ _ _ _ c hc
    rw [he] at hb
    cases hb
  · intro e he
    apply PushArtefact_trace_of_not_composed
    intro c hc
    obtain ⟨_, _, _, _, _, _, hb, _⟩ := composeIndex_ok_inv _ _ _ _ _ c hc
    rw [he] at hb
    cases hb
  · intro e he
    apply PushArtefact_trace_of_not_composed
    intro c hc
    obtain ⟨_, sum, _, _, hn, _⟩ := composeIndex_ok_inv _ _ _ _ _ c hc
    obtain ⟨repo, hr⟩ := nameTags_ok_inv env destinationRef sum _ hn
    rw [he] at hr
    cases hr
  · intro hall
    apply PushArtefact_trace_of_not_composed
    intro c hc
    obtain ⟨_, _, _, _, _, _, _, ha⟩ := composeIndex_ok_inv _ _ _ _ _ c hc
    have hd := assembleIndex_ok_inv _ _ _ _ _ _ _ ha
    obtain ⟨e, he⟩ := hall c.index
    rw [he] at hd
    cases hd
  · intro c e hc hw
    simp [PushArtefact, hc, hw]

/-- C10 on concrete runs: a full run writes the index and then the aliases; a
refused index write is the only call; a panic while naming the tags leaves the
registry untouched. -/
theorem push_traces_of_concrete_runs :
    (PushArtefact okEnv "ttl.sh/x/podinfo" "dir" none [podinfoStatement]).trace =
      [.writeIndex ((name.Repository.mk "ttl.sh/x/podinfo").Tag "config.deadbeef01") true,
       .tag ((name.Repository.mk "ttl.sh/x/podinfo").Tag "v6.6.3") true,
       .tag ((name.Repository.mk "ttl.sh/x/podinfo").Tag "config.deadbee") true] ∧
    (PushArtefact writeFailEnv "ttl.sh/x/podinfo" "dir" none [podinfoStatement]).trace =
      [.writeIndex ((name.Repository.mk "ttl.sh/x/podinfo").Tag "config.deadbeef01") false] ∧
    (PushArtefact shortHashEnv "ttl.sh/x/podinfo" "dir" none [podinfoStatement]).trace = [] := by
  decide


/-! ## Theorems: composed index and returned references -/

theorem assembleManifests_config (env : PushEnv) (archive : Blob)
    (attestLayer : Option BuiltLayer) (timestamp : Option Time)
    (sourceAttestations : List Statement) (index : IndexData)
    (h : assembleManifests env archive attestLayer timestamp sourceAttestations = .ok index) :
    ∃ config rest, index.Manifests = (makeDescriptorWithPlatform, config) :: rest ∧
      config.ConfigMediaType = ContentMediaType ∧
      config.Layers = [{ MediaType := ContentMediaType, Compressed := archive }] ∧
      goMapGet config.Annotations ContentInterpreterAnnotation =
        some ContentInterpreterKubectlApply := by
  unfold assembleManifests at h
  cases h1 : env.layerFromFile with
  | some e => simp [h1, orReturnErr, bind, Except.bind] at h
  | none =>
    simp only [h1, Option.map_none', orReturnErr, bind, Except.bind] at h
    split at h
    · cases h
    · rename_i u hu
      cases attestLayer with
      | none =>
        simp only [pure, Except.pure, Except.ok.injEq] at h
        subst h
        refine ⟨_, [], rfl, rfl, rfl, ?_⟩
        simp [goMapGet_goMapSet]
      | some layer =>
        simp only [pure, Except.pure] at h
        repeat' split at h
        all_goals first
          | (cases h; done)
          | (simp only [Except.ok.injEq] at h
             subst h
             refine ⟨_, _, rfl, rfl, rfl, ?_⟩
             simp [goMapGet_goMapSet])

theorem assembleIndex_manifests_inv (env : PushEnv) (archive : Blob)
    (attestLayer : Option BuiltLayer) (timestamp : Option Time)
    (sourceAttestations : List Statement) (index : IndexData) (digest : Hash)
    (h : assembleIndex env archive attestLayer timestamp sourceAttestations =
      .ok (index, digest)) :
    assembleManifests env archive attestLayer timestamp sourceAttestations = .ok index := by
  unfold assembleIndex at h
  cases hm : assembleManifests env archive attestLayer timestamp sourceAttestations with
  | error e => simp [hm, bind, Except.bind] at h
  | ok ix =>
    cases hd : env.indexDigest ix with
    | error e => simp [hm, hd, wrapError, orReturn, bind, Except.bind] at h
    | ok dg =>
      simp only [hm, hd, wrapError, orReturn, bind, Except.bind, pure, Except.pure,
        Except.ok.injEq, Prod.mk.injEq] at h
      rw [h.1]

/-- C11 (as stated, refuted): a push without attestation statements composes
a config manifest that carries the content-interpreter annotation. -/
theorem push_config_annotated_without_statements :
    ∃ c config, composeIndex okEnv "ttl.sh/x/podinfo" "dir" none [] = .ok c ∧
      c.index.Manifests = [(makeDescriptorWithPlatform, config)] ∧
      config.ConfigMediaType = ContentMediaType ∧
      goMapGet config.Annotations ContentInterpreterAnnotation =
        some ContentInterpreterKubectlApply :=
  ⟨_, _, rfl, rfl, rfl, by decide⟩

/-- C11 (amended): whenever the stages of `PushArtefact` before the registry
succeed, with or without attestation statements, the first manifest of the
index is the config manifest (content media type, the content blob as its sole
layer) and it carries the content-interpreter annotation with the
kubectl-apply value. -/
theorem push_config_always_annotated (env : PushEnv) (destinationRef sourceDir : String)
    (timestamp : Option Time) (sourceAttestations : List Statement) (c : Composed)
    (h : composeIndex env destinationRef sourceDir timestamp sourceAttestations = .ok c) :
    ∃ config rest archive sum,
      env.buildArtefact sourceDir = .ok (archive, sum) ∧
      c.index.Manifests = (makeDescriptorWithPlatform, config) :: rest ∧
      config.ConfigMediaType = ContentMediaType ∧
      config.Layers = [{ MediaType := ContentMediaType, Compressed := archive }] ∧
      goMapGet config.Annotations ContentInterpreterAnnotation =
        some ContentInterpreterKubectlApply := by
  obtain ⟨archive, sum, attestLayer, hb, _, _, _, ha⟩ :=
    composeIndex_ok_inv env destinationRef sourceDir timestamp sourceAttestations c h
  have hm := assembleIndex_manifests_inv env archive attestLayer timestamp sourceAttestations
    c.index c.digest ha
  obtain ⟨config, rest, h1, h2, h3, h4⟩ :=
    assembleManifests_config env archive attestLayer timestamp sourceAttestations c.index hm
  exact ⟨config, rest, archive, sum, hb, h1, h2, h3, h4⟩

/-- C11 witness: a push with one statement; the config manifest is annotated
as it is without statements. -/
theorem push_config_always_annotated_witness :
    ∃ c, composeIndex okEnv "ttl.sh/x/podinfo" "dir" none [podinfoStatement] = .ok c ∧
      ∃ config rest archive sum,
        okEnv.buildArtefact "dir" = .ok (archive, sum) ∧
        c.index.Manifests = (makeDescriptorWithPlatform, config) :: rest ∧
        config.ConfigMediaType = ContentMediaType ∧
        config.Layers = [{ MediaType := ContentMediaType, Compressed := archive }] ∧
        goMapGet config.Annotations ContentInterpreterAnnotation =
          some ContentInterpreterKubectlApply :=
  ⟨_, rfl, push_config_always_annotated okEnv "ttl.sh/x/podinfo" "dir" none [podinfoStatement]
    _ rfl⟩

theorem set_length_append {α : Type} (l1 l2 : List α) (a b : α) :
    (l1 ++ a :: l2).set l1.length b = l1 ++ b :: l2 := by
  induction l1 with
  | nil => rfl
  | cons x xs ih => simp [List.set, ih]

theorem aliasLoop_success_inv (env : PushEnv) (index : IndexData) (digest : Hash)
    (done todo : List name.Tag) (short : name.Tag) (refs : PackageRefs)
    (trace : List RegistryCall) (r : Option PackageRefs)
    (hsv : refs.SemVer = done.map (aliasRef digest) ++ List.replicate todo.length "")
    (h : (aliasLoop env index digest (done.length + todo.length) done.length
      (todo ++ [short]) refs trace).result = .ok (r, none)) :
    r = some { refs with SemVer := (done ++ todo).map (aliasRef digest) } ∧
    (aliasLoop env index digest (done.length + todo.length) done.length
      (todo ++ [short]) refs trace).trace =
        trace ++ (todo ++ [short]).map (fun b => RegistryCall.tag b true) := by
  induction todo generalizing done refs trace with
  | nil =>
    simp only [List.nil_append, List.length_nil, Nat.add_zero, List.replicate_zero,
      List.append_nil] at hsv h ⊢
    unfold aliasLoop at h ⊢
    cases ht : env.remoteTag done.length short index with
    | some e => simp [ht] at h
    | none =>
      simp only [ht, Nat.lt_irrefl, if_false, aliasLoop, Except.ok.injEq, Prod.mk.injEq,
        and_true] at h ⊢
      refine ⟨?_, by simp⟩
      rw [← h, ← hsv]
  | cons t ts ih =>
    have hlen : done.length + (t :: ts).length = (done ++ [t]).length + ts.length := by
      simp only [List.length_cons, List.length_append, List.length_nil]; omega
    have hlen1 : done.length + 1 = (done ++ [t]).length := by simp
    simp only [List.cons_append] at h ⊢
    unfold aliasLoop at h ⊢
    cases ht : env.remoteTag done.length t index with
    | some e => simp [ht] at h
    | none =>
      have hlt : done.length < done.length + (t :: ts).length := by
        simp only [List.length_cons]; omega
      simp only [ht, hlt, if_true] at h ⊢
      rw [hlen, hlen1] at h ⊢
      have hsv2 : (refs.SemVer.set done.length (t.String ++ "@" ++ digest.String)) =
          (done ++ [t]).map (aliasRef digest) ++ List.replicate ts.length "" := by
        rw [hsv]
        have := set_length_append (done.map (aliasRef digest)) (List.replicate ts.length "")
          "" (aliasRef digest t)
        simp only [List.length_map] at this
        simp only [List.length_cons, List.replicate_succ, List.map_append, List.map_cons,
          List.map_nil, List.append_assoc, List.singleton_append]
        exact this
      obtain ⟨hr, htr⟩ := ih (done ++ [t])
        { refs with SemVer := refs.SemVer.set done.length (t.String ++ "@" ++ digest.String) }
        (trace ++ [.tag t true]) hsv2 h
      refine ⟨?_, ?_⟩
      · rw [hr]; simp
      · rw [htr]; simp

theorem PushArtefact_success_inv (env : PushEnv) (destinationRef sourceDir : String)
    (timestamp : Option Time) (sourceAttestations : List Statement) (r : Option PackageRefs)
    (h : (PushArtefact env destinationRef sourceDir timestamp sourceAttestations).result =
      .ok (r, none)) :
    ∃ c, composeIndex env destinationRef sourceDir timestamp sourceAttestations = .ok c ∧
      env.writeIndex c.tag c.index = none := by
  cases hc : composeIndex env destinationRef sourceDir timestamp sourceAttestations with
  | error f =>
    unfold PushArtefact at h
    rw [hc] at h
    cases f <;> simp at h
  | ok c =>
    cases hw : env.writeIndex c.tag c.index with
    | some e => simp [PushArtefact, hc, hw] at h
    | none => exact ⟨c, rfl, hw⟩

/-- C12: when `PushArtefact` returns without error, the returned `PackageRefs`
has `Digest` equal to the index digest, `Primary` and `Short` equal to the
primary and short tag strings, and `SemVer` of the length of the derived
semver tags with `SemVer[i] = string(t_i) + "@" + digest` in derivation
order; the registry saw the index write, one alias per semver tag, and last
the short tag, which contributes no element to `SemVer`. -/
theorem push_success_returns_refs (env : PushEnv) (destinationRef sourceDir : String)
    (timestamp : Option Time) (sourceAttestations : List Statement) (r : Option PackageRefs)
    (h : (PushArtefact env destinationRef sourceDir timestamp sourceAttestations).result =
      .ok (r, none)) :
    ∃ c, composeIndex env destinationRef sourceDir timestamp sourceAttestations = .ok c ∧
      SemVerTagsFromAttestations c.tag sourceAttestations = .ok c.semVerTags ∧
      env.indexDigest c.index = .ok c.digest ∧
      r = some
        { Digest := c.digest.String,
          Primary := c.tag.String,
          Short := c.shortTag.String,
          SemVer := c.semVerTags.map (fun t => t.String ++ "@" ++ c.digest.String) } ∧
      (∀ refs, r = some refs → refs.SemVer.length = c.semVerTags.length ∧
        ∀ i t, c.semVerTags.get? i = some t →
          refs.SemVer.get? i = some (t.String ++ "@" ++ c.digest.String)) ∧
      (PushArtefact env destinationRef sourceDir timestamp sourceAttestations).trace =
        RegistryCall.writeIndex c.tag true ::
          (c.semVerTags.map (fun t => RegistryCall.tag t true) ++
            [RegistryCall.tag c.shortTag true]) := by
  obtain ⟨c, hc, hw⟩ := PushArtefact_success_inv _ _ _ _ _ r h
  obtain ⟨archive, _, attestLayer, _, _, hsem, _, ha⟩ := composeIndex_ok_inv _ _ _ _ _ c hc
  have hd := assembleIndex_ok_inv _ _ _ _ _ _ _ ha
  rw [PushArtefact_of_composed _ _ _ _ _ c hc hw] at h ⊢
  have h0 := aliasLoop_success_inv env c.index c.digest [] c.semVerTags c.shortTag
    { Digest := c.digest.String, Primary := c.tag.String, Short := c.shortTag.String,
      SemVer := List.replicate c.semVerTags.length "" }
    [.writeIndex c.tag true] r (by simp)
  simp only [List.length_nil, Nat.zero_add, List.nil_append] at h0
  obtain ⟨hr, htr⟩ := h0 h
  have hr2 : r = some
      { Digest := c.digest.String,
        Primary := c.tag.String,
        Short := c.shortTag.String,
        SemVer := c.semVerTags.map (fun t => t.String ++ "@" ++ c.digest.String) } := by
    rw [hr]; rfl
  refine ⟨c, hc, hsem, hd, hr2, ?_, ?_⟩
  · intro refs hrefs
    rw [hr2] at hrefs
    simp only [Option.some.injEq] at hrefs
    subst hrefs
    refine ⟨by simp, ?_⟩
    intro i t hi
    simp only [List.get?_eq_getElem?, List.getElem?_map] at hi ⊢
    rw [hi]
    rfl
  · rw [htr]; simp

/-- C12 witness: the full run in `okEnv` with the test statement returns the
digest, both tag strings and the single semver alias `v6.6.3@digest`. -/
theorem push_success_returns_refs_witness :
    (PushArtefact okEnv "ttl.sh/x/podinfo" "dir" none [podinfoStatement]).result =
      .ok (some
        { Digest := "sha256:1d",
          Primary := "ttl.sh/x/podinfo:config.deadbeef01",
          Short := "ttl.sh/x/podinfo:config.deadbee",
          SemVer := ["ttl.sh/x/podinfo:v6.6.3@sha256:1d"] }, none) ∧
    ∃ c, composeIndex okEnv "ttl.sh/x/podinfo" "dir" none [podinfoStatement] = .ok c ∧
      c.semVerTags = [(name.Repository.mk "ttl.sh/x/podinfo").Tag "v6.6.3"] ∧
      (PushArtefact okEnv "ttl.sh/x/podinfo" "dir" none [podinfoStatement]).trace =
        RegistryCall.writeIndex c.tag true ::
          (c.semVerTags.map (fun t => RegistryCall.tag t true) ++
            [RegistryCall.tag c.shortTag true]) := by
  have hres : (PushArtefact okEnv "ttl.sh/x/podinfo" "dir" none [podinfoStatement]).result =
      .ok (some
        { Digest := "sha256:1d",
          Primary := "ttl.sh/x/podinfo:config.deadbeef01",
          Short := "ttl.sh/x/podinfo:config.deadbee",
          SemVer := ["ttl.sh/x/podinfo:v6.6.3@sha256:1d"] }, none) := by decide
  obtain ⟨c, hc, _, _, _, _, htr⟩ :=
    push_success_returns_refs okEnv "ttl.sh/x/podinfo" "dir" none [podinfoStatement] _ hres
  refine ⟨hres, c, hc, ?_, htr⟩
  have hc2 : composeIndex okEnv "ttl.sh/x/podinfo" "dir" none [podinfoStatement] = .ok c := hc
  have hv : (composeIndex okEnv "ttl.sh/x/podinfo" "dir" none [podinfoStatement]).map
      (fun c => c.semVerTags) =
      .ok [(name.Repository.mk "ttl.sh/x/podinfo").Tag "v6.6.3"] := by decide
  rw [hc2] at hv
  simpa [Except.map] using hv


/-! ## Theorems: plain-image branch of the fetcher -/

theorem imageLayersLoop_resolved (mediaTypes : List MediaType) (image : Image)
    (manifest : Manifest) (mk : Descriptor → ArtefactInfo) (layers : List Descriptor)
    (acc : List ArtefactInfo)
    (h : ∀ l ∈ layers, selected mediaTypes l.MediaType = true →
      newArtifcatInfoFromLayerDescriptor image l manifest.Annotations = .ok (mk l)) :
    imageLayersLoop mediaTypes image manifest layers acc =
      .ok (acc ++ (layers.filter (fun l => selected mediaTypes l.MediaType)).map mk) := by
  induction layers generalizing acc with
  | nil => simp [imageLayersLoop]
  | cons x xs ih =>
    have h2 := fun l hl => h l (List.mem_cons_of_mem x hl)
    unfold imageLayersLoop
    cases hs : selected mediaTypes x.MediaType
    · simp only [skip_eq_not_selected, hs, Bool.not_false, if_true, ih _ h2, List.filter_cons,
        Bool.false_eq_true, if_false]
    · simp only [skip_eq_not_selected, hs, Bool.not_true, Bool.false_eq_true, if_false,
        h x (List.mem_cons_self _ _) hs, ih _ h2, List.filter_cons, if_true, List.map_cons,
        List.append_assoc, List.singleton_append]

theorem imageLayersLoop_error_wrapped (mediaTypes : List MediaType) (image : Image)
    (manifest : Manifest) (layers : List Descriptor) (acc : List ArtefactInfo) (e : Error)
    (h : imageLayersLoop mediaTypes image manifest layers acc = .error e) :
    ∃ context cause, e = .wrapped context cause := by
  induction layers generalizing acc with
  | nil => simp [imageLayersLoop] at h
  | cons x xs ih =>
    unfold imageLayersLoop at h
    cases hs : skip mediaTypes x.MediaType
    · simp only [hs, Bool.false_eq_true, if_false] at h
      cases hinfo : newArtifcatInfoFromLayerDescriptor image x manifest.Annotations with
      | ok info =>
        rw [hinfo] at h
        exact ih _ h
      | error err =>
        rw [hinfo] at h
        simp only [Except.error.injEq] at h
        subst h
        unfold newArtifcatInfoFromLayerDescriptor at hinfo
        cases hl : image.LayerByDigest x.Digest with
        | error e1 =>
          simp only [hl, wrapError, bind, Except.bind, Except.error.injEq] at hinfo
          exact ⟨_, _, hinfo.symm⟩
        | ok layer =>
          cases hb : layer.Compressed with
          | error e2 =>
            simp only [hl, hb, wrapError, bind, Except.bind, Except.error.injEq] at hinfo
            exact ⟨_, _, hinfo.symm⟩
          | ok blob =>
            simp [hl, hb, wrapError, bind, Except.bind, pure, Except.pure] at hinfo
    · simp only [hs, if_true] at h
      exact ih _ h

theorem fetch_plain_image_resolved (imageIndex : ImageIndex) (image : Image)
    (mediaTypes : List MediaType) (manifest : Manifest) (digest : Hash) (blob : Hash → Blob)
    (hm : image.Manifest = .ok manifest) (hd : image.Digest = .ok digest)
    (hl : ∀ l ∈ manifest.Layers, selected mediaTypes l.MediaType = true →
      ∃ layer, image.LayerByDigest l.Digest = .ok layer ∧
        layer.Compressed = .ok (blob l.Digest)) :
    FetchFromIndexOrImage imageIndex none image mediaTypes =
      .ok (selectedImageLayers mediaTypes manifest blob, [(digest, manifest)]) := by
  have hloop := imageLayersLoop_resolved mediaTypes image manifest
    (fun l =>
      { ReadCloser := blob l.Digest,
        MediaType := l.MediaType,
        Annotations := manifest.Annotations,
        Digest := l.Digest.String })
    manifest.Layers []
    (by
      intro l hmem hs
      obtain ⟨layer, h1, h2⟩ := hl l hmem hs
      simp [newArtifcatInfoFromLayerDescriptor, h1, h2, wrapError, bind, Except.bind, pure,
        Except.pure])
  simp only [FetchFromIndexOrImage, hm, hd, wrapError, bind, Except.bind, hloop, pure,
    Except.pure, List.nil_append, goMapSet, selectedImageLayers]

theorem fetch_plain_image_error_kind (imageIndex : ImageIndex) (image : Image)
    (mediaTypes : List MediaType) (e : Error)
    (h : FetchFromIndexOrImage imageIndex none image mediaTypes = .error e) :
    (∃ context cause, e = .wrapped context cause) ∨ image.Digest = .error e := by
  unfold FetchFromIndexOrImage at h
  cases hm : image.Manifest with
  | error e1 =>
    simp only [hm, wrapError, bind, Except.bind, Except.error.injEq] at h
    exact Or.inl ⟨_, _, h.symm⟩
  | ok manifest =>
    cases hd : image.Digest with
    | error e2 =>
      simp only [hm, hd, wrapError, bind, Except.bind, Except.error.injEq] at h
      exact Or.inr (by rw [h])
    | ok digest =>
      simp only [hm, hd, wrapError, bind, Except.bind] at h
      cases hloop : imageLayersLoop mediaTypes image manifest manifest.Layers [] with
      | error e3 =>
        rw [hloop] at h
        simp only [Except.error.injEq] at h
        subst h
        exact Or.inl (imageLayersLoop_error_wrapped _ _ _ _ _ _ hloop)
      | ok r =>
        rw [hloop] at h
        simp [pure, Except.pure] at h

/-- C15 (as stated, refuted): a plain image whose two layers carry different
media types, so that one of them disagrees with whatever type is declared, is
fetched successfully with both layers: the plain-image branch compares no
layer media type with a declared type. -/
theorem fetch_plain_image_tolerates_mixed_layers :
    (∀ declared : MediaType, ∃ l ∈ mixedManifest.Layers, l.MediaType ≠ declared) ∧
    mixedImage.Manifest = .ok mixedManifest ∧
    FetchFromIndexOrImage mismatchIndex none mixedImage [] =
      .ok ([{ ReadCloser := [31, 139, 8], MediaType := ContentMediaType,
              Annotations := mixedManifest.Annotations, Digest := "sha256:1c" },
            { ReadCloser := [31, 139, 9], MediaType := AttestMediaType,
              Annotations := mixedManifest.Annotations, Digest := "sha256:1a" }],
           [(sha "f0", mixedManifest)]) := by
  refine ⟨?_, rfl, by decide⟩
  intro declared
  by_cases h : declared = ContentMediaType
  · exact ⟨mismatchLayerDescriptor, by decide, by rw [h]; decide⟩
  · exact ⟨contentLayerDescriptor, by decide, fun hc => h hc.symm⟩

/-- C15 (amended): for a plain image whose manifest, digest and selected
layers resolve, the fetch returns the layers the allow-list selects by their
own media type (all layers when the list is empty), in layer order, each with
the image manifest's annotations, its media type and its digest, and a manifest
map holding the image digest alone; and whatever the image, an error of this
branch is a wrapped resolution error or the error of `image.Digest()`, never a
media-type mismatch raised by a comparison. -/
theorem fetch_plain_image_selects_layers (imageIndex : ImageIndex) (image : Image)
    (mediaTypes : List MediaType) :
    (∀ (manifest : Manifest) (digest : Hash) (blob : Hash → Blob),
      image.Manifest = .ok manifest → image.Digest = .ok digest →
      (∀ l ∈ manifest.Layers, selected mediaTypes l.MediaType = true →
        ∃ layer, image.LayerByDigest l.Digest = .ok layer ∧
          layer.Compressed = .ok (blob l.Digest)) →
      FetchFromIndexOrImage imageIndex none image mediaTypes =
        .ok (selectedImageLayers mediaTypes manifest blob, [(digest, manifest)])) ∧
    (∀ e, FetchFromIndexOrImage imageIndex none image mediaTypes = .error e →
      (∃ context cause, e = .wrapped context cause) ∨ image.Digest = .error e) :=
  ⟨fun manifest digest blob hm hd hl =>
      fetch_plain_image_resolved imageIndex image mediaTypes manifest digest blob hm hd hl,
    fun e h => fetch_plain_image_error_kind imageIndex image mediaTypes e h⟩

/-- C15 witness: the mixed image fetched with the allow-list
`[AttestMediaType]` returns its attestation layer alone. -/
theorem fetch_plain_image_selects_layers_witness :
    FetchFromIndexOrImage mismatchIndex none mixedImage [AttestMediaType] =
      .ok (selectedImageLayers [AttestMediaType] mixedManifest (packageBlobOf (sha "f0")),
        [(sha "f0", mixedManifest)]) ∧
    selectedImageLayers [AttestMediaType] mixedManifest (packageBlobOf (sha "f0")) =
      [{ ReadCloser := [31, 139, 9], MediaType := AttestMediaType,
         Annotations := mixedManifest.Annotations, Digest := "sha256:1a" }] :=
  ⟨(fetch_plain_image_selects_layers mismatchIndex mixedImage [AttestMediaType]).1
      mixedManifest (sha "f0") (packageBlobOf (sha "f0")) rfl rfl
      (fun _ _ _ => ⟨_, rfl, rfl⟩),
    by decide⟩


/-! ## Theorems: content archiver -/

theorem walkDir_cons (tw : TarWriter) (sep : Char) (absDir : String) (dirStat : Option FileInfo)
    (s : WalkStep) (rest : List WalkStep) (written : List TarEvent) :
    walkDir tw sep absDir dirStat (s :: rest) written =
      if (walkFn tw sep absDir dirStat written s).outcome = .returned none then
        walkDir tw sep absDir dirStat rest (walkFn tw sep absDir dirStat written s).written
      else walkFn tw sep absDir dirStat written s := by
  rw [walkDir]
  generalize walkFn tw sep absDir dirStat written s = r
  obtain ⟨w, o⟩ := r
  cases o with
  | nilDereference => simp
  | returned err =>
    cases err with
    | none => simp
    | some e => simp

theorem walkFn_withoutEnvironment (tw : TarWriter) (sep : Char) (absDir : String)
    (dirStat : Option FileInfo) (written : List TarEvent) (s : WalkStep) :
    walkFn tw sep absDir (dirStat.map FileInfo.withoutEnvironment) written
        s.withoutEnvironment =
      walkFn tw sep absDir dirStat written s := by
  obtain ⟨rel, ⟨typ, info⟩, prevErr, openFile, closeFile⟩ := s
  cases prevErr with
  | some e => simp [walkFn, WalkStep.withoutEnvironment]
  | none =>
    cases info with
    | error e => simp [walkFn, WalkStep.withoutEnvironment, Except.map]
    | ok fi =>
      cases dirStat with
      | none =>
        cases hm : fi.Mode <;>
          simp [walkFn, WalkStep.withoutEnvironment, Except.map, FileInfoHeader,
            FileInfo.withoutEnvironment, hm]
      | some ds =>
        cases hd : ds.Mode.IsDir <;> cases hm : fi.Mode <;>
          simp [walkFn, WalkStep.withoutEnvironment, Except.map, FileInfoHeader,
            FileInfo.withoutEnvironment, hm, hd, removeEnvironmentData]

theorem walkDir_withoutEnvironment (tw : TarWriter) (sep : Char) (absDir : String)
    (dirStat : Option FileInfo) (steps : List WalkStep) (written : List TarEvent) :
    walkDir tw sep absDir (dirStat.map FileInfo.withoutEnvironment)
        (steps.map WalkStep.withoutEnvironment) written =
      walkDir tw sep absDir dirStat steps written := by
  induction steps generalizing written with
  | nil => simp [walkDir]
  | cons s rest ih =>
    rw [List.map_cons, walkDir_cons, walkDir_cons, walkFn_withoutEnvironment, ih]

theorem BuildArtefact_withoutEnvironment (tw : TarWriter) (sep : Char) (tree : SourceTree) :
    BuildArtefact tw sep tree.withoutEnvironment = BuildArtefact tw sep tree := by
  obtain ⟨abs, stat, walk⟩ := tree
  cases abs with
  | error e => rfl
  | ok absDir =>
    cases stat with
    | notExist => rfl
    | ok fi =>
      have h := walkDir_withoutEnvironment tw sep absDir (some fi) walk []
      simp only [Option.map_some'] at h
      simp only [BuildArtefact, SourceTree.withoutEnvironment, h]
    | otherError e =>
      have h := walkDir_withoutEnvironment tw sep absDir none walk []
      simp only [Option.map_none'] at h
      simp only [BuildArtefact, SourceTree.withoutEnvironment, h]

theorem removeEnvironmentData_free (h : Header) : (removeEnvironmentData h).EnvironmentFree := by
  simp [removeEnvironmentData, Header.EnvironmentFree]

theorem walkFn_headers_free (tw : TarWriter) (sep : Char) (absDir : String)
    (dirStat : Option FileInfo) (written : List TarEvent) (s : WalkStep) (h : Header)
    (hh : TarEvent.header h ∈ (walkFn tw sep absDir dirStat written s).written) :
    TarEvent.header h ∈ written ∨ h.EnvironmentFree := by
  unfold walkFn at hh
  by_cases hft : (!(s.di.Typ.IsRegular || s.di.Typ.IsDir)) = true
  · simp only [hft, if_true] at hh
    split at hh <;> exact Or.inl hh
  · by_cases hreg : (!s.di.Typ.IsRegular) = true
    · simp only [hft, hreg, if_false, if_true] at hh
      repeat' split at hh
      all_goals first
        | exact Or.inl hh
        | (simp only [List.mem_append, List.mem_singleton, TarEvent.header.injEq, List.mem_cons,
            reduceCtorEq, or_false, List.not_mem_nil] at hh
           rcases hh with hh | hh
           · exact Or.inl hh
           · subst hh
             exact Or.inr (removeEnvironmentData_free _))
    · simp only [hft, hreg, if_false] at hh
      repeat' split at hh
      all_goals first
        | exact Or.inl hh
        | (simp only [List.mem_append, List.mem_singleton, TarEvent.header.injEq, List.mem_cons,
            reduceCtorEq, or_false, List.not_mem_nil] at hh
           rcases hh with hh | hh
           · exact Or.inl hh
           · subst hh
             exact Or.inr (removeEnvironmentData_free _))

theorem walkDir_headers_free (tw : TarWriter) (sep : Char) (absDir : String)
    (dirStat : Option FileInfo) (steps : List WalkStep) (written : List TarEvent)
    (hw : ∀ h, TarEvent.header h ∈ written → h.EnvironmentFree) :
    ∀ h, TarEvent.header h ∈ (walkDir tw sep absDir dirStat steps written).written →
      h.EnvironmentFree := by
  induction steps generalizing written with
  | nil => simpa [walkDir] using hw
  | cons s rest ih =>
    have hstep : ∀ h, TarEvent.header h ∈ (walkFn tw sep absDir dirStat written s).written →
        h.EnvironmentFree := by
      intro h hh
      rcases walkFn_headers_free tw sep absDir dirStat written s h hh with h1 | h1
      · exact hw h h1
      · exact h1
    rw [walkDir_cons]
    split
    · exact ih _ hstep
    · exact hstep

theorem finish_written (tw : TarWriter) (r : StepResult) :
    (match r with
      | { written := written, outcome := .returned none } =>
        match tw.closeTar written with
        | some err => ({ written := written, outcome := .returned (some err) } : ArchiveRun)
        | none =>
          match tw.closeGzip written with
          | some err => { written := written, outcome := .returned (some err) }
          | none => { written := written, outcome := .returned none }
      | r => { written := r.written, outcome := r.outcome }).written = r.written := by
  obtain ⟨w, o⟩ := r
  cases o with
  | nilDereference => rfl
  | returned err =>
    cases err with
    | some e => rfl
    | none =>
      simp only
      cases tw.closeTar w with
      | some e => rfl
      | none =>
        cases tw.closeGzip w with
        | some e => rfl
        | none => rfl

theorem BuildArtefact_written (tw : TarWriter) (sep : Char) (tree : SourceTree) :
    (BuildArtefact tw sep tree).written = [] ∨
      ∃ absDir dirStat, (BuildArtefact tw sep tree).written =
        (walkDir tw sep absDir dirStat tree.walk []).written := by
  obtain ⟨abs, stat, walk⟩ := tree
  cases abs with
  | error e => exact Or.inl rfl
  | ok absDir =>
    cases stat with
    | notExist => exact Or.inl rfl
    | ok fi => exact Or.inr ⟨absDir, some fi, finish_written tw _⟩
    | otherError e => exact Or.inr ⟨absDir, none, finish_written tw _⟩

theorem BuildArtefact_headers_free (tw : TarWriter) (sep : Char) (tree : SourceTree) :
    ∀ h, TarEvent.header h ∈ (BuildArtefact tw sep tree).written → h.EnvironmentFree := by
  intro h hh
  rcases BuildArtefact_written tw sep tree with h0 | ⟨absDir, dirStat, h1⟩
  · rw [h0] at hh
    cases hh
  · rw [h1] at hh
    exact walkDir_headers_free tw sep absDir dirStat tree.walk [] (by simp) h hh

theorem map_toSlash_of_not_mem (sep : Char) (l : List Char) (h : sep ∉ l) :
    l.map (fun c => if c = sep then '/' else c) = l := by
  induction l with
  | nil => rfl
  | cons x xs ih =>
    have hx : x ≠ sep := fun e => h (e ▸ List.mem_cons_self _ _)
    have hxs : sep ∉ xs := fun e => h (List.mem_cons_of_mem _ e)
    simp [hx, ih hxs]

theorem intercalate_go_toSlash (sep : Char) (rel : List String) (acc acc2 : String)
    (hacc : acc2.data = acc.data.map (fun c => if c = sep then '/' else c))
    (hrel : ∀ c ∈ rel, sep ∉ c.data) :
    (String.intercalate.go acc2 "/" rel).data =
      (String.intercalate.go acc sep.toString rel).data.map
        (fun c => if c = sep then '/' else c) := by
  induction rel generalizing acc acc2 with
  | nil => simpa [String.intercalate.go] using hacc
  | cons a as ih =>
    simp only [String.intercalate.go]
    apply ih
    · have ha := map_toSlash_of_not_mem sep a.data (hrel a (List.mem_cons_self _ _))
      have hs : sep.toString.data = [sep] := rfl
      simp only [String.data_append, List.map_append, hacc, ha, hs, List.map_cons, List.map_nil,
        if_true]
    · exact fun c hc => hrel c (List.mem_cons_of_mem _ hc)

theorem toSlash_rel (sep : Char) (hsep : sep = '/' ∨ sep = '\\') (rel : List String)
    (hrel : ∀ c ∈ rel, sep ∉ c.data) :
    filepathToSlash sep (filepathRel sep rel) = slashPath rel := by
  rcases hsep with hs | hs
  · subst hs
    rfl
  · have hne : sep ≠ '/' := by rw [hs]; decide
    unfold filepathToSlash filepathRel slashPath
    simp only [hne, if_false]
    cases rel with
    | nil =>
      subst hs
      rfl
    | cons a as =>
      simp only [List.isEmpty_cons, Bool.false_eq_true, if_false, String.intercalate]
      apply String.ext
      have ha := map_toSlash_of_not_mem sep a.data (hrel a (List.mem_cons_self _ _))
      rw [intercalate_go_toSlash sep as a a ha.symm
        (fun c hc => hrel c (List.mem_cons_of_mem _ hc))]

theorem walkFn_skip (tw : TarWriter) (sep : Char) (absDir : String)
    (dirStat : Option FileInfo) (written : List TarEvent) (s : WalkStep)
    (hp : s.prevErr = none) (ht : s.isFileOrDir = false) :
    walkFn tw sep absDir dirStat written s = { written := written, outcome := .returned none } := by
  unfold WalkStep.isFileOrDir at ht
  simp [walkFn, hp, ht]

theorem walkDir_filter (tw : TarWriter) (sep : Char) (absDir : String)
    (dirStat : Option FileInfo) (steps : List WalkStep) (written : List TarEvent) :
    walkDir tw sep absDir dirStat
        (steps.filter (fun s => s.prevErr.isSome || s.isFileOrDir)) written =
      walkDir tw sep absDir dirStat steps written := by
  induction steps generalizing written with
  | nil => rfl
  | cons s rest ih =>
    cases hk : (s.prevErr.isSome || s.isFileOrDir)
    · have hp : s.prevErr = none := by
        cases h : s.prevErr with
        | none => rfl
        | some e => simp [h] at hk
      have ht : s.isFileOrDir = false := by
        cases h : s.isFileOrDir with
        | false => rfl
        | true => simp [h] at hk
      rw [List.filter_cons, if_neg (by simp [hk]), ih, walkDir_cons,
        walkFn_skip tw sep absDir dirStat written s hp ht]
      simp
    · rw [List.filter_cons, if_pos hk, walkDir_cons, walkDir_cons, ih]

theorem BuildArtefact_filter (tw : TarWriter) (sep : Char) (tree : SourceTree) :
    BuildArtefact tw sep
        { tree with walk := tree.walk.filter (fun s => s.prevErr.isSome || s.isFileOrDir) } =
      BuildArtefact tw sep tree := by
  obtain ⟨abs, stat, walk⟩ := tree
  simp only [BuildArtefact, walkDir_filter]

theorem walkFn_served (tw : TarWriter) (sep : Char) (absDir : String) (root : FileInfo)
    (written : List TarEvent) (s : WalkStep) (fi : FileInfo) (content : Blob)
    (hsep : sep = '/' ∨ sep = '\\') (hroot : root.Mode = .dir)
    (hw : ∀ w h, tw.writeHeader w h = none) (hcopy : ∀ w b, tw.copy w b = none)
    (hp : s.prevErr = none) (ht : s.isFileOrDir = true)
    (hinfo : s.di.Info = .ok fi) (hmode : fi.Mode = s.di.Typ)
    (hopen : s.di.Typ = .regular → s.openFile = .ok content ∧ s.closeFile = none)
    (hrel : ∀ c ∈ s.rel, sep ∉ c.data) :
    walkFn tw sep absDir (some root) written s =
      { written := written ++
          (.header (entryHeader s.rel fi) ::
            (if s.di.Typ.IsRegular then [.body content] else [])),
        outcome := .returned none } := by
  have hname := toSlash_rel sep hsep s.rel hrel
  unfold WalkStep.isFileOrDir at ht
  cases hty : s.di.Typ with
  | regular =>
    obtain ⟨ho, hc⟩ := hopen hty
    rw [hty] at hmode
    simp [walkFn, hp, hty, hinfo, FileInfoHeader, hmode, hroot, FileType.IsRegular,
      FileType.IsDir, hw, hcopy, ho, hc, hname, removeEnvironmentData, entryHeader]
  | dir =>
    rw [hty] at hmode
    simp [walkFn, hp, hty, hinfo, FileInfoHeader, hmode, hroot, FileType.IsRegular,
      FileType.IsDir, hw, hname, removeEnvironmentData, entryHeader]
  | symlink => simp [hty, FileType.IsRegular, FileType.IsDir] at ht
  | namedPipe => simp [hty, FileType.IsRegular, FileType.IsDir] at ht
  | socket => simp [hty, FileType.IsRegular, FileType.IsDir] at ht
  | device => simp [hty, FileType.IsRegular, FileType.IsDir] at ht
  | charDevice => simp [hty, FileType.IsRegular, FileType.IsDir] at ht
  | irregular => simp [hty, FileType.IsRegular, FileType.IsDir] at ht

theorem walkDir_served (tw : TarWriter) (sep : Char) (absDir : String) (root : FileInfo)
    (steps : List WalkStep) (written : List TarEvent)
    (hsep : sep = '/' ∨ sep = '\\') (hroot : root.Mode = .dir)
    (hw : ∀ w h, tw.writeHeader w h = none) (hcopy : ∀ w b, tw.copy w b = none)
    (hprev : ∀ s ∈ steps, s.prevErr = none)
    (hserved : ∀ s ∈ steps, s.isFileOrDir = true →
      (∃ fi, s.di.Info = .ok fi ∧ fi.Mode = s.di.Typ) ∧
      (s.di.Typ = .regular → (∃ b, s.openFile = .ok b) ∧ s.closeFile = none) ∧
      ∀ c ∈ s.rel, sep ∉ c.data) :
    walkDir tw sep absDir (some root) steps written =
      { written := written ++
          archiveEvents WalkStep.infoOrZero WalkStep.contentOrEmpty steps,
        outcome := .returned none } := by
  induction steps generalizing written with
  | nil => simp [walkDir, archiveEvents]
  | cons s rest ih =>
    have hprev2 := fun x hx => hprev x (List.mem_cons_of_mem s hx)
    have hserved2 := fun x hx => hserved x (List.mem_cons_of_mem s hx)
    have hp := hprev s (List.mem_cons_self _ _)
    rw [walkDir_cons]
    cases ht : s.isFileOrDir
    · rw [walkFn_skip tw sep absDir (some root) written s hp ht]
      simp only [if_true, ih _ hprev2 hserved2]
      simp [archiveEvents, ht]
    · obtain ⟨⟨fi, hinfo, hmode⟩, hopen, hrel⟩ := hserved s (List.mem_cons_self _ _) ht
      have hfi : s.infoOrZero = fi := by simp [WalkStep.infoOrZero, hinfo]
      have hstep := walkFn_served tw sep absDir root written s fi s.contentOrEmpty hsep hroot
        hw hcopy hp ht hinfo hmode
        (by
          intro hreg
          obtain ⟨⟨b, hb⟩, hc⟩ := hopen hreg
          exact ⟨by simp [WalkStep.contentOrEmpty, hb], hc⟩)
        hrel
      rw [hstep]
      simp only [if_true, ih _ hprev2 hserved2]
      simp [archiveEvents, ht, entryEvents, hfi]

theorem headerNames_archiveEvents (info : WalkStep → FileInfo) (content : WalkStep → Blob)
    (steps : List WalkStep) :
    headerNames (archiveEvents info content steps) =
      (steps.filter WalkStep.isFileOrDir).map (fun s => slashPath s.rel) := by
  unfold archiveEvents
  induction steps.filter WalkStep.isFileOrDir with
  | nil => rfl
  | cons s rest ih =>
    simp only [List.flatMap_cons, List.map_cons, headerNames, List.filterMap_append] at ih ⊢
    rw [ih]
    cases hr : s.di.Typ.IsRegular <;> simp [entryEvents, entryHeader, hr]

/-- The archive of a source rooted at a directory that the file system serves
without error: one entry per regular file and directory, in walk order, named
by its slash-separated path relative to the root. -/
theorem archive_of_directory_source (tw : TarWriter) (sep : Char) (tree : SourceTree)
    (absDir : String) (root : FileInfo)
    (hsep : sep = '/' ∨ sep = '\\')
    (habs : tree.abs = .ok absDir) (hstat : tree.stat = .ok root) (hroot : root.Mode = .dir)
    (hw : ∀ w h, tw.writeHeader w h = none) (hcopy : ∀ w b, tw.copy w b = none)
    (hct : ∀ w, tw.closeTar w = none) (hcg : ∀ w, tw.closeGzip w = none)
    (hprev : ∀ s ∈ tree.walk, s.prevErr = none)
    (hserved : ∀ s ∈ tree.walk, s.isFileOrDir = true →
      (∃ fi, s.di.Info = .ok fi ∧ fi.Mode = s.di.Typ) ∧
      (s.di.Typ = .regular → (∃ b, s.openFile = .ok b) ∧ s.closeFile = none) ∧
      ∀ c ∈ s.rel, sep ∉ c.data) :
    BuildArtefact tw sep tree =
      { written := archiveEvents WalkStep.infoOrZero WalkStep.contentOrEmpty tree.walk,
        outcome := .returned none } ∧
    headerNames (BuildArtefact tw sep tree).written =
      (tree.walk.filter WalkStep.isFileOrDir).map (fun s => slashPath s.rel) ∧
    BuildArtefact tw sep
        { tree with walk := tree.walk.filter (fun s => s.prevErr.isSome || s.isFileOrDir) } =
      BuildArtefact tw sep tree := by
  have hwalk := walkDir_served tw sep absDir root tree.walk [] hsep hroot hw hcopy hprev hserved
  have hrun : BuildArtefact tw sep tree =
      { written := archiveEvents WalkStep.infoOrZero WalkStep.contentOrEmpty tree.walk,
        outcome := .returned none } := by
    obtain ⟨abs, stat, walk⟩ := tree
    simp only at habs hstat hwalk
    subst habs hstat
    simp only [BuildArtefact, hwalk, List.nil_append, hct, hcg]
  refine ⟨hrun, ?_, BuildArtefact_filter tw sep tree⟩
  rw [hrun]
  exact headerNames_archiveEvents _ _ _

/-! ## Theorems: archives of source trees with the same content -/

theorem walkFn_same (tw : TarWriter) (sep : Char) (abs1 abs2 : String)
    (ds1 ds2 : Option FileInfo) (rootIsDir : Bool) (written : List TarEvent) (s1 s2 : WalkStep)
    (hds : (ds1 = none ∧ ds2 = none) ∨
      ∃ r1 r2, ds1 = some r1 ∧ ds2 = some r2 ∧ r1.Mode.IsDir = rootIsDir ∧
        r2.Mode.IsDir = rootIsDir)
    (h : sameStep rootIsDir abs1 abs2 s1 s2 = true) :
    walkFn tw sep abs1 ds1 written s1 = walkFn tw sep abs2 ds2 written s2 := by
  obtain ⟨rel1, ⟨typ1, info1⟩, prevErr1, openFile1, closeFile1⟩ := s1
  obtain ⟨rel2, ⟨typ2, info2⟩, prevErr2, openFile2, closeFile2⟩ := s2
  simp only [sameStep, WalkStep.isFileOrDir, Bool.and_eq_true, decide_eq_true_eq,
    Bool.or_eq_true, Bool.not_eq_true'] at h
  obtain ⟨⟨⟨hrel, htyp⟩, hprev⟩, hrest⟩ := h
  subst hrel htyp hprev
  cases prevErr1 with
  | some e => simp [walkFn]
  | none =>
    rcases hrest with hskip | ⟨hinfo, hfile⟩
    · simp [walkFn, hskip]
    · cases info1 with
      | error e1 =>
        cases info2 with
        | error e2 =>
          simp only [sameInfoResult, decide_eq_true_eq] at hinfo
          subst hinfo
          simp [walkFn]
        | ok f2 => simp [sameInfoResult] at hinfo
      | ok f1 =>
        cases info2 with
        | error e2 => simp [sameInfoResult] at hinfo
        | ok f2 =>
          simp only [sameInfoResult, sameInfo, Bool.and_eq_true, Bool.or_eq_true,
            decide_eq_true_eq] at hinfo
          obtain ⟨⟨⟨⟨hmode, hperm⟩, hsize⟩, hname⟩, hlink⟩ := hinfo
          rcases hds with ⟨h1, h2⟩ | ⟨r1, r2, h1, h2, hd1, hd2⟩
          · subst h1 h2
            cases hm : f1.Mode <;>
              (have hm2 : f2.Mode = _ := hmode ▸ hm
               simp [walkFn, FileInfoHeader, hm, hm2])
          · subst h1 h2
            rcases hfile with hreg | ⟨ho, hc⟩
            · cases hm : f1.Mode <;> cases hrd : rootIsDir <;>
                (have hm2 : f2.Mode = _ := hmode ▸ hm
                 simp [hm, hrd] at hsize hname hlink
                 simp [walkFn, FileInfoHeader, hm, hm2, hd1, hd2, hrd, removeEnvironmentData,
                   hperm, hsize, hname, hlink, hreg])
            · subst ho hc
              cases hm : f1.Mode <;> cases hrd : rootIsDir <;>
                (have hm2 : f2.Mode = _ := hmode ▸ hm
                 simp [hm, hrd] at hsize hname hlink
                 simp [walkFn, FileInfoHeader, hm, hm2, hd1, hd2, hrd, removeEnvironmentData,
                   hperm, hsize, hname, hlink])
theorem walkDir_same (tw : TarWriter) (sep : Char) (abs1 abs2 : String)
    (ds1 ds2 : Option FileInfo) (rootIsDir : Bool) (steps1 steps2 : List WalkStep)
    (written : List TarEvent)
    (hds : (ds1 = none ∧ ds2 = none) ∨
      ∃ r1 r2, ds1 = some r1 ∧ ds2 = some r2 ∧ r1.Mode.IsDir = rootIsDir ∧
        r2.Mode.IsDir = rootIsDir)
    (h : sameWalk rootIsDir abs1 abs2 steps1 steps2 = true) :
    walkDir tw sep abs1 ds1 steps1 written = walkDir tw sep abs2 ds2 steps2 written := by
  induction steps1 generalizing steps2 written with
  | nil =>
    cases steps2 with
    | nil => rfl
    | cons s2 r2 => simp [sameWalk] at h
  | cons s1 r1 ih =>
    cases steps2 with
    | nil => simp [sameWalk] at h
    | cons s2 r2 =>
      simp only [sameWalk, Bool.and_eq_true] at h
      rw [walkDir_cons, walkDir_cons,
        walkFn_same tw sep abs1 abs2 ds1 ds2 rootIsDir written s1 s2 hds h.1, ih r2 _ h.2]

theorem BuildArtefact_same (tw : TarWriter) (sep : Char) (t1 t2 : SourceTree)
    (h : sameContent t1 t2 = true) :
    BuildArtefact tw sep t1 = BuildArtefact tw sep t2 := by
  obtain ⟨abs1, stat1, walk1⟩ := t1
  obtain ⟨abs2, stat2, walk2⟩ := t2
  cases abs1 with
  | error e1 =>
    cases abs2 with
    | error e2 =>
      simp only [sameContent, decide_eq_true_eq] at h
      subst h
      rfl
    | ok a2 => simp [sameContent] at h
  | ok a1 =>
    cases abs2 with
    | error e2 => simp [sameContent] at h
    | ok a2 =>
      cases stat1 with
      | notExist =>
        cases stat2 with
        | notExist =>
          simp only [sameContent, decide_eq_true_eq] at h
          subst h
          rfl
        | ok r2 => simp [sameContent] at h
        | otherError e2 => simp [sameContent] at h
      | ok r1 =>
        cases stat2 with
        | notExist => simp [sameContent] at h
        | otherError e2 => simp [sameContent] at h
        | ok r2 =>
          simp only [sameContent, Bool.and_eq_true, decide_eq_true_eq] at h
          have hw := walkDir_same tw sep a1 a2 (some r1) (some r2) r1.Mode.IsDir walk1 walk2 []
            (Or.inr ⟨r1, r2, rfl, rfl, rfl, h.1.symm⟩) h.2
          simp only [BuildArtefact, hw]
      | otherError e1 =>
        cases stat2 with
        | notExist => simp [sameContent] at h
        | ok r2 => simp [sameContent] at h
        | otherError e2 =>
          simp only [sameContent] at h
          have hw := walkDir_same tw sep a1 a2 none none false walk1 walk2 []
            (Or.inl ⟨rfl, rfl⟩) h
          simp only [BuildArtefact, hw]

/-- C13: two source trees that have the same relative paths, entry types,
modes, sizes and file contents (`sameContent`: absolute path, root name,
directory sizes, owner and group ids and names and the three times are free),
or that agree once the owner, group and time data of every file info are
cleared, make `BuildArtefact` hand the same sequence of headers and bodies to
the same tar writer and end the same way; and every header written has
`Uid = Gid = 0`, empty `Uname` and `Gname`, and zero `ModTime`, `AccessTime`
and `ChangeTime`. -/
theorem archive_independent_of_environment (tw : TarWriter) (sep : Char)
    (t1 t2 : SourceTree)
    (h : sameContent t1 t2 = true ∨ t1.withoutEnvironment = t2.withoutEnvironment) :
    BuildArtefact tw sep t1 = BuildArtefact tw sep t2 ∧
    (∀ hd, TarEvent.header hd ∈ (BuildArtefact tw sep t1).written → hd.EnvironmentFree) := by
  refine ⟨?_, BuildArtefact_headers_free tw sep t1⟩
  rcases h with h | h
  · exact BuildArtefact_same tw sep t1 t2 h
  · rw [← BuildArtefact_withoutEnvironment tw sep t1,
      ← BuildArtefact_withoutEnvironment tw sep t2, h]

/-- C13 witness: the sample tree under `/src`, owned by uid 1000, and the same
tree checked out under `/home/ci/checkout/manifests` by root at another time
on a file system with other directory sizes, are different inputs, also after
clearing owner and times, with one and the same archive. -/
theorem archive_independent_of_environment_witness :
    (sampleTree 1000 "ilya" 1700000000).withoutEnvironment ≠
      (sampleTreeAt "/home/ci/checkout/manifests" "manifests" 160 0 "root" 5).withoutEnvironment ∧
    sameContent (sampleTree 1000 "ilya" 1700000000)
      (sampleTreeAt "/home/ci/checkout/manifests" "manifests" 160 0 "root" 5) = true ∧
    BuildArtefact okTarWriter '/' (sampleTree 1000 "ilya" 1700000000) =
      BuildArtefact okTarWriter '/'
        (sampleTreeAt "/home/ci/checkout/manifests" "manifests" 160 0 "root" 5) ∧
    (∀ hd, TarEvent.header hd ∈
        (BuildArtefact okTarWriter '/' (sampleTree 1000 "ilya" 1700000000)).written →
      hd.EnvironmentFree) :=
  ⟨by decide, by decide,
    archive_independent_of_environment okTarWriter '/' (sampleTree 1000 "ilya" 1700000000)
      (sampleTreeAt "/home/ci/checkout/manifests" "manifests" 160 0 "root" 5)
      (Or.inl (by decide))⟩


/-! ## Theorems: archive entries for any kind of source root -/

theorem walkFn_served_in (tw : TarWriter) (sep : Char) (absDir : String) (root : FileInfo)
    (written : List TarEvent) (s : WalkStep) (fi : FileInfo) (content : Blob)
    (hsep : sep = '/' ∨ sep = '\\')
    (hw : ∀ w h, tw.writeHeader w h = none) (hcopy : ∀ w b, tw.copy w b = none)
    (hp : s.prevErr = none) (ht : s.isFileOrDir = true)
    (hinfo : s.di.Info = .ok fi) (hmode : fi.Mode = s.di.Typ)
    (hopen : s.di.Typ = .regular → s.openFile = .ok content ∧ s.closeFile = none)
    (hrel : ∀ c ∈ s.rel, sep ∉ c.data) :
    walkFn tw sep absDir (some root) written s =
      { written := written ++
          (.header { entryHeader s.rel fi with Name := entryName root.Mode.IsDir s.rel fi } ::
            (if s.di.Typ.IsRegular then [.body content] else [])),
        outcome := .returned none } := by
  have hname := toSlash_rel sep hsep s.rel hrel
  unfold WalkStep.isFileOrDir at ht
  cases hty : s.di.Typ with
  | regular =>
    obtain ⟨ho, hc⟩ := hopen hty
    rw [hty] at hmode
    by_cases hrd : root.Mode = .dir <;>
      simp [walkFn, hp, hty, hinfo, FileInfoHeader, hmode, hrd, FileType.IsRegular,
        FileType.IsDir, hw, hcopy, ho, hc, hname, removeEnvironmentData, entryHeader, entryName]
  | dir =>
    rw [hty] at hmode
    by_cases hrd : root.Mode = .dir <;>
      simp [walkFn, hp, hty, hinfo, FileInfoHeader, hmode, hrd, FileType.IsRegular,
        FileType.IsDir, hw, hname, removeEnvironmentData, entryHeader, entryName]
  | symlink => simp [hty, FileType.IsRegular, FileType.IsDir] at ht
  | namedPipe => simp [hty, FileType.IsRegular, FileType.IsDir] at ht
  | socket => simp [hty, FileType.IsRegular, FileType.IsDir] at ht
  | device => simp [hty, FileType.IsRegular, FileType.IsDir] at ht
  | charDevice => simp [hty, FileType.IsRegular, FileType.IsDir] at ht
  | irregular => simp [hty, FileType.IsRegular, FileType.IsDir] at ht

theorem walkDir_served_in (tw : TarWriter) (sep : Char) (absDir : String) (root : FileInfo)
    (steps : List WalkStep) (written : List TarEvent)
    (hsep : sep = '/' ∨ sep = '\\')
    (hw : ∀ w h, tw.writeHeader w h = none) (hcopy : ∀ w b, tw.copy w b = none)
    (hprev : ∀ s ∈ steps, s.prevErr = none)
    (hserved : ∀ s ∈ steps, s.isFileOrDir = true →
      (∃ fi, s.di.Info = .ok fi ∧ fi.Mode = s.di.Typ) ∧
      (s.di.Typ = .regular → (∃ b, s.openFile = .ok b) ∧ s.closeFile = none) ∧
      ∀ c ∈ s.rel, sep ∉ c.data) :
    walkDir tw sep absDir (some root) steps written =
      { written := written ++
          archiveEventsIn root.Mode.IsDir WalkStep.infoOrZero WalkStep.contentOrEmpty steps,
        outcome := .returned none } := by
  induction steps generalizing written with
  | nil => simp [walkDir, archiveEventsIn]
  | cons s rest ih =>
    have hprev2 := fun x hx => hprev x (List.mem_cons_of_mem s hx)
    have hserved2 := fun x hx => hserved x (List.mem_cons_of_mem s hx)
    have hp := hprev s (List.mem_cons_self _ _)
    rw [walkDir_cons]
    cases ht : s.isFileOrDir
    · rw [walkFn_skip tw sep absDir (some root) written s hp ht]
      simp only [if_true, ih _ hprev2 hserved2]
      simp [archiveEventsIn, ht]
    · obtain ⟨⟨fi, hinfo, hmode⟩, hopen, hrel⟩ := hserved s (List.mem_cons_self _ _) ht
      have hfi : s.infoOrZero = fi := by simp [WalkStep.infoOrZero, hinfo]
      have hstep := walkFn_served_in tw sep absDir root written s fi s.contentOrEmpty hsep
        hw hcopy hp ht hinfo hmode
        (by
          intro hreg
          obtain ⟨⟨b, hb⟩, hc⟩ := hopen hreg
          exact ⟨by simp [WalkStep.contentOrEmpty, hb], hc⟩)
        hrel
      rw [hstep]
      simp only [if_true, ih _ hprev2 hserved2]
      simp [archiveEventsIn, ht, entryEventsIn, hfi]

theorem headerNames_archiveEventsIn (rootIsDir : Bool) (info : WalkStep → FileInfo)
    (content : WalkStep → Blob) (steps : List WalkStep) :
    headerNames (archiveEventsIn rootIsDir info content steps) =
      (steps.filter WalkStep.isFileOrDir).map (fun s => entryName rootIsDir s.rel (info s)) := by
  unfold archiveEventsIn
  induction steps.filter WalkStep.isFileOrDir with
  | nil => rfl
  | cons s rest ih =>
    simp only [List.flatMap_cons, List.map_cons, headerNames, List.filterMap_append] at ih ⊢
    rw [ih]
    cases hr : s.di.Typ.IsRegular <;> simp [entryEventsIn, hr]

/-- C14 (as stated, refuted): a source that is a single regular file is
archived as one entry named by the base name of the file, `deploy.yaml`, not
by its path relative to the source root, which is `.`: the callback renames an
entry only `if dirStat.IsDir()`. -/
theorem archive_of_file_source_named_by_base_name :
    fileSourceTree.walk.map (fun s => (s.rel, s.di.Typ)) = [([], FileType.regular)] ∧
    (BuildArtefact okTarWriter '/' fileSourceTree).outcome = .returned none ∧
    headerNames (BuildArtefact okTarWriter '/' fileSourceTree).written = ["deploy.yaml"] ∧
    (fileSourceTree.walk.filter WalkStep.isFileOrDir).map (fun s => slashPath s.rel) = ["."] := by
  decide

/-- C14 (amended): for a source whose regular files and directories the file
system serves without error, written through a tar writer that does not fail,
`BuildArtefact` returns nil and the archive holds, in walk order, exactly one
entry for each regular file and each directory reached by the walk (header
and, for a file, its bytes) and no entry for any other walked item; an entry is
named by its slash-separated path relative to the source root when the root is
a directory, and by the base name of its file info when the root is not a
directory; and for every source, removing the walked items that are neither
regular files nor directories changes neither what is written nor how the call
ends. -/
theorem archive_holds_files_and_directories (tw : TarWriter) (sep : Char) (tree : SourceTree)
    (absDir : String) (root : FileInfo)
    (hsep : sep = '/' ∨ sep = '\\')
    (habs : tree.abs = .ok absDir) (hstat : tree.stat = .ok root)
    (hw : ∀ w h, tw.writeHeader w h = none) (hcopy : ∀ w b, tw.copy w b = none)
    (hct : ∀ w, tw.closeTar w = none) (hcg : ∀ w, tw.closeGzip w = none)
    (hprev : ∀ s ∈ tree.walk, s.prevErr = none)
    (hserved : ∀ s ∈ tree.walk, s.isFileOrDir = true →
      (∃ fi, s.di.Info = .ok fi ∧ fi.Mode = s.di.Typ) ∧
      (s.di.Typ = .regular → (∃ b, s.openFile = .ok b) ∧ s.closeFile = none) ∧
      ∀ c ∈ s.rel, sep ∉ c.data) :
    BuildArtefact tw sep tree =
      { written := archiveEventsIn root.Mode.IsDir WalkStep.infoOrZero WalkStep.contentOrEmpty
          tree.walk,
        outcome := .returned none } ∧
    headerNames (BuildArtefact tw sep tree).written =
      (tree.walk.filter WalkStep.isFileOrDir).map
        (fun s => entryName root.Mode.IsDir s.rel s.infoOrZero) ∧
    (root.Mode = .dir →
      headerNames (BuildArtefact tw sep tree).written =
        (tree.walk.filter WalkStep.isFileOrDir).map (fun s => slashPath s.rel)) ∧
    (root.Mode ≠ .dir →
      headerNames (BuildArtefact tw sep tree).written =
        (tree.walk.filter WalkStep.isFileOrDir).map
          (fun s => if s.infoOrZero.Mode = .dir then s.infoOrZero.Name ++ "/"
            else s.infoOrZero.Name)) ∧
    BuildArtefact tw sep
        { tree with walk := tree.walk.filter (fun s => s.prevErr.isSome || s.isFileOrDir) } =
      BuildArtefact tw sep tree := by
  have hwalk := walkDir_served_in tw sep absDir root tree.walk [] hsep hw hcopy hprev hserved
  have hrun : BuildArtefact tw sep tree =
      { written := archiveEventsIn root.Mode.IsDir WalkStep.infoOrZero WalkStep.contentOrEmpty
          tree.walk,
        outcome := .returned none } := by
    obtain ⟨abs, stat, walk⟩ := tree
    simp only at habs hstat hwalk
    subst habs hstat
    simp only [BuildArtefact, hwalk, List.nil_append, hct, hcg]
  have hnames : headerNames (BuildArtefact tw sep tree).written =
      (tree.walk.filter WalkStep.isFileOrDir).map
        (fun s => entryName root.Mode.IsDir s.rel s.infoOrZero) := by
    rw [hrun]
    exact headerNames_archiveEventsIn _ _ _ _
  refine ⟨hrun, hnames, ?_, ?_, BuildArtefact_filter tw sep tree⟩
  · intro hroot
    rw [hnames]
    simp [entryName, hroot, FileType.IsDir]
  · intro hroot
    rw [hnames]
    simp [entryName, hroot, FileType.IsDir]

/-- C14 witness: the sample tree is rooted at a directory and holds a symlink;
its archive has the three entries `.`, `app` and `app/deploy.yaml`, and the
call returns nil. -/
theorem archive_holds_files_and_directories_witness :
    (BuildArtefact okTarWriter '/' (sampleTree 1000 "ilya" 1700000000)).outcome =
      .returned none ∧
    headerNames (BuildArtefact okTarWriter '/' (sampleTree 1000 "ilya" 1700000000)).written =
      [".", "app", "app/deploy.yaml"] ∧
    (sampleTree 1000 "ilya" 1700000000).walk.map (fun s => s.di.Typ) =
      [.dir, .dir, .regular, .symlink] := by
  have h := archive_holds_files_and_directories okTarWriter '/'
    (sampleTree 1000 "ilya" 1700000000) "/src" (sampleInfo "src" 4096 .dir 1000 "ilya" 1700000000)
    (Or.inl rfl) rfl rfl (fun _ _ => rfl) (fun _ _ => rfl) (fun _ => rfl) (fun _ => rfl)
    (by decide) (by
      intro s hs ht
      simp only [sampleTree, List.mem_cons, List.mem_singleton, List.not_mem_nil, or_false] at hs
      rcases hs with hs | hs | hs | hs <;> subst hs
      · exact ⟨⟨_, rfl, rfl⟩, fun _ => ⟨⟨_, rfl⟩, rfl⟩, by decide⟩
      · exact ⟨⟨_, rfl, rfl⟩, fun _ => ⟨⟨_, rfl⟩, rfl⟩, by decide⟩
      · exact ⟨⟨_, rfl, rfl⟩, fun _ => ⟨⟨_, rfl⟩, rfl⟩, by decide⟩
      · exact absurd ht (by decide))
  refine ⟨by rw [h.1], ?_, by decide⟩
  rw [h.2.2.1 rfl]
  decide

end Tape
